import Mathlib

/-!
# Verification of the XML element-removal pipeline

This development embeds, in Lean 4, the core of
`cumulusci/tasks/metadata/modify.py`: the tree model for parsed XML
documents, the `salesforce_encoding` canonical serializer, the
`has_content` helper, the option-validation logic of
`RemoveElementsXPath._init_options`, and the conditional-write decision of
`RemoveElementsXPath._process_element`.  Pure functions of the Python
source become Lean functions; the one in-place mutation performed by the
serializer (forcing an `xmlns` attribute onto the root) is modelled as an
explicit tree-to-tree function.  The XML parser and XPath engine used by
the source are the external `lxml` library; where claims quantify over
parsing they are settled against executable models written from the
specification's data model (marked `Modelled from the spec:` below).
-/

/- ### Named characters used throughout.  `aposChar` is the ASCII
apostrophe (39), `lbraceChar` and `rbraceChar` are the braces (123 and
125) that delimit the namespace URI in lxml's qualified tags. -/

def aposChar : Char := Char.ofNat 39

def lbraceChar : Char := Char.ofNat 123

def rbraceChar : Char := Char.ofNat 125

def aposEntity : String := String.mk ['&', 'a', 'p', 'o', 's', ';']

/-- Python's `needle in haystack` substring test on the underlying
character lists: some (possibly empty) window of `cs` equals `pat`. -/
def containsSub (pat : List Char) : List Char → Bool
  | [] => pat.isEmpty
  | c :: rest => pat.isPrefixOf (c :: rest) || containsSub pat rest

/-- `SF_NS in tag` for strings (Python substring membership). -/
def pyIn (needle hay : String) : Bool := containsSub needle.data hay.data

/-- The fixed XML declaration emitted once at the start of every
serialization (`xml_encoding` in the source). -/
def xml_encoding : String := "<?xml version=\"1.0\" encoding=\"UTF-8\"?>\n"

/-- The producer (Salesforce metadata) namespace URI (`SF_NS`). -/
def SF_NS : String := "http://soap.sforce.com/2006/04/metadata"

/-- Embeds the tag-stripping in `salesforce_encoding`:
`if "}" in tag: tag = tag.split("}")[1]` — the segment of `tag` strictly
between the first `}` and the following `}` (or the end). -/
def stripNsTag (tag : String) : String :=
  if tag.data.contains rbraceChar then
    String.mk
      (((tag.data.dropWhile (fun c => !(c == rbraceChar))).drop 1).takeWhile
        (fun c => !(c == rbraceChar)))
  else tag

/-- Embeds CPython's `xml.sax.saxutils.escape(data, {APOS: "&apos;",
QUOT: "&quot;"})` restricted to one character: `&`, `<`, `>`, the
apostrophe and the double quote map to their entities, all other
characters to themselves.  CPython performs the textual replacements
sequentially (`&` first, then `>`, `<`, then the two extra entities);
since no entity string contains `<`, `>`, an apostrophe or a quote, and
`&` is replaced before any entity is introduced, the sequential passes
have exactly this character-by-character effect. -/
def escCharL (c : Char) : List Char :=
  if c == '&' then ['&', 'a', 'm', 'p', ';']
  else if c == '<' then ['&', 'l', 't', ';']
  else if c == '>' then ['&', 'g', 't', ';']
  else if c == aposChar then ['&', 'a', 'p', 'o', 's', ';']
  else if c == '"' then ['&', 'q', 'u', 'o', 't', ';']
  else [c]

/-- The text-escaping function applied by the serializer to element text. -/
def saxEscape (s : String) : String := String.mk (s.data.flatMap escCharL)

/- ### The tree model (§3 of the spec; lxml's element tree as used by the
source).  An element carries its qualified tag (lxml's `"{uri}local"`
convention), its attribute list in document order (namespace declarations
are *not* attributes in lxml and so do not appear here), its optional
leading text, its children (elements and comments interleaved, in order)
and its optional tail text.  A comment carries its content and tail. -/

inductive Node where
  | element (tag : String) (attrs : List (String × String))
      (text : Option String) (children : List Node) (tail : Option String)
  | comment (text : String) (tail : Option String)

/-- Python truthiness of an optional string: `None` and `""` are falsy. -/
def truthyOptStr : Option String → Bool
  | none => false
  | some s => !s.isEmpty

/-- `x if x else d` for an optional string `x` (used for tail fallbacks). -/
def pyOrStr (x : Option String) (d : String) : String :=
  match x with
  | none => d
  | some s => if s.isEmpty then d else s

/-- Embeds `has_content`: `element.text or list(element)` is truthy.
For an lxml comment, `.text` is the comment's content and `list(_)` is
empty. -/
def has_content : Node → Bool
  | .element _ _ text children _ => truthyOptStr text || !children.isEmpty
  | .comment text _ => !text.isEmpty

/-- The attribute string built by the serializer:
`"".join([f' {k}="{v}"' for k, v in elem.attrib.items()])` — note the
value `v` is inserted verbatim, with no escaping. -/
def attrsString (attrs : List (String × String)) : String :=
  (attrs.map (fun kv => " " ++ kv.1 ++ "=\"" ++ kv.2 ++ "\"")).foldr
    (fun a b => a ++ b) ""

/-- `str(comment)` for an lxml comment node: `"<!--" + text + "-->"`. -/
def commentStr (text : String) : String := "<!--" ++ text ++ "-->"

mutual

/-- The per-node output of the `iterwalk` loop in `salesforce_encoding`,
written as the equivalent depth-first recursion.  On `start` of an
element: `<` + stripped tag + attributes, then either `/>` (when
`has_content` is falsy) or `>` followed by the escaped leading text; on
`end` of an element with content: `</tag>` followed by the tail, or a
single newline when the tail is `None` or empty.  A comment contributes
`str(elem)` plus its tail (empty fallback). -/
def serializeNode : Node → String
  | .element tag attrs text children tail =>
    let t := stripNsTag tag
    let txt := match text with
      | some s => saxEscape s
      | none => ""
    let at_ := attrsString attrs
    if !has_content (.element tag attrs text children tail) then
      "<" ++ t ++ at_ ++ "/>"
    else
      "<" ++ t ++ at_ ++ ">" ++ txt ++ serializeList children ++
        "</" ++ t ++ ">" ++ pyOrStr tail "\n"
  | .comment text tail => commentStr text ++ pyOrStr tail ""

/-- Children are emitted in document order. -/
def serializeList : List Node → String
  | [] => ""
  | n :: ns => serializeNode n ++ serializeList ns

end

/- ### The document and the full serializer. -/

/-- A parsed document: a single root element (spec §3).  The fields are
the root element's components. -/
structure XDoc where
  rootTag : String
  rootAttrs : List (String × String)
  rootText : Option String
  rootChildren : List Node
  rootTail : Option String

/-- The root element of a document as a `Node`. -/
def XDoc.rootNode (d : XDoc) : Node :=
  .element d.rootTag d.rootAttrs d.rootText d.rootChildren d.rootTail

/-- Embeds `attrib[k] = v` on lxml's ordered attribute mapping: an
existing key keeps its position and gets the new value; a missing key is
appended at the end. -/
def setAttrib (attrs : List (String × String)) (k v : String) :
    List (String × String) :=
  if attrs.any (fun kv => kv.1 == k) then
    attrs.map (fun kv => if kv.1 == k then (kv.1, v) else kv)
  else attrs ++ [(k, v)]

/-- The in-place mutation performed by `salesforce_encoding` before the
walk: `if SF_NS in xdoc.getroot().tag: xdoc.getroot().attrib["xmlns"] =
SF_NS`.  This is the state of the tree after serialization. -/
def salesforce_encoding_tree (d : XDoc) : XDoc :=
  if pyIn SF_NS d.rootTag then
    { d with rootAttrs := setAttrib d.rootAttrs "xmlns" SF_NS }
  else d

/-- Embeds `salesforce_encoding(xdoc)`: the fixed declaration followed by
the walk over the (possibly xmlns-mutated) tree. -/
def salesforce_encoding (d : XDoc) : String :=
  xml_encoding ++ serializeNode (salesforce_encoding_tree d).rootNode

/- ### Option validation (`RemoveElementsXPath._init_options`). -/

/-- Python truthiness of the `elements` option (a list of work units):
`None` and the empty list are falsy. -/
def truthyOptList (o : Option (List (String × String))) : Bool :=
  match o with
  | none => false
  | some l => !l.isEmpty

/-- Embeds the validation chain of `_init_options`: raises
`TaskOptionsError` when `xpath and not path`, `elif path and not xpath`,
`elif (path and elements) or (not elements and not path)`. -/
def init_options_raises (xpath path : Option String)
    (elements : Option (List (String × String))) : Bool :=
  if truthyOptStr xpath && !truthyOptStr path then true
  else if truthyOptStr path && !truthyOptStr xpath then true
  else if (truthyOptStr path && truthyOptList elements) ||
      (!truthyOptList elements && !truthyOptStr path) then true
  else false

/- ### The conditional write (`RemoveElementsXPath._process_element`). -/

/-- Python 3 semantics of `orig != processed` where `orig : bytes` was
read with `open(f, "rb")` and `processed : str` is the serializer output:
`bytes.__ne__(str)` and `str.__ne__(bytes)` both return `NotImplemented`,
so the comparison falls back to identity and two objects of distinct
types are always unequal — the test is `True` for every pair of values,
regardless of content. -/
def py_bytes_ne_str (orig : List UInt8) (processed : String) : Bool :=
  (fun _ _ => true) orig processed

/-- The write decision in `_process_element`: the file is rewritten
exactly when `orig != processed`. -/
def file_rewritten (orig : List UInt8) (processed : String) : Bool :=
  py_bytes_ne_str orig processed

/-- UTF-8 bytes of a string, as written by
`open(f, "w", encoding="utf-8").write(processed)`. -/
def utf8Bytes (s : String) : List UInt8 := s.toUTF8.data.toList

/- ### The selector + mutator, for the concrete queries the claims use. -/

/-- Whether a node is an element with the given qualified tag (a comment
never matches a tag; lxml comments have a non-string tag). -/
def nodeMatchesTag (t : String) : Node → Bool
  | .element tag _ _ _ _ => tag == t
  | .comment _ _ => false

mutual

/-- Modelled from the spec: the Selector Engine's recursive query
`//ns:x` (spec §4.1) selects every descendant element whose qualified tag
is the given one, in document order, and the Mutator (spec §4.2) detaches
each match from its parent's ordered child list, discarding the entire
subtree including its tail.  The engine itself is lxml's XPath evaluator,
external to the source file. -/
def removeByTagNode (t : String) : Node → Node
  | .element tag attrs text children tail =>
    .element tag attrs text (removeByTagList t children) tail
  | .comment text tail => .comment text tail

/-- Removal over an ordered child list: matches are dropped, the rest are
processed recursively, sibling order preserved. -/
def removeByTagList (t : String) : List Node → List Node
  | [] => []
  | n :: ns =>
    if nodeMatchesTag t n then removeByTagList t ns
    else removeByTagNode t n :: removeByTagList t ns

end

/-- Removal applied below a document root (the engine is never asked to
remove the root itself, spec §4.2). -/
def removeByTagDoc (t : String) (d : XDoc) : XDoc :=
  { d with rootChildren := removeByTagList t d.rootChildren }

/- ### A parser for the document language, modelled from the spec.
The source parses files with `lxml.etree.parse`, which is external to the
repository; the spec describes the resulting tree (§3) and relies on the
parse in its testable properties (§8).  The model below reads the subset
of XML the pipeline deals in: an optional XML declaration, one root
element, nested elements with double-quoted attributes, comments, the
five predefined entities, and lxml's namespace convention (a default
`xmlns` declaration is not an attribute; it prefixes descendant tags with
`\x7buri\x7d`).  Unparseable input yields `none`, as lxml raises. -/

def isNameChar (c : Char) : Bool := c.isAlphanum || c == '_' || c == '-' || c == '.'

def isWsChar (c : Char) : Bool := c == ' ' || c == '\n' || c == '\t' || c == '\r'

/-- Split a list at the longest leading run satisfying `p`. -/
def spanP (p : Char → Bool) : List Char → List Char × List Char
  | [] => ([], [])
  | c :: cs =>
    if p c then
      let r := spanP p cs
      (c :: r.1, r.2)
    else ([], c :: cs)

/-- Strip an exact literal from the front of the input, or fail. -/
def matchLit : List Char → List Char → Option (List Char)
  | [], cs => some cs
  | _ :: _, [] => none
  | l :: ls, c :: cs => if c == l then matchLit ls cs else none

/-- Split the input at the first occurrence of a literal, returning the
part before it and the part after it. -/
def splitAtSub (pat : List Char) : List Char → Option (List Char × List Char)
  | [] =>
    match matchLit pat [] with
    | some rest => some ([], rest)
    | none => none
  | c :: cs =>
    match matchLit pat (c :: cs) with
    | some rest => some ([], rest)
    | none =>
      match splitAtSub pat cs with
      | some pr => some (c :: pr.1, pr.2)
      | none => none

/-- Decode the five predefined entities in a run of character data; a
bare `&` that does not start a known entity is a parse error, as in
lxml. -/
def unescapeRun : List Char → Option (List Char)
  | [] => some []
  | c :: rest =>
    if c == '&' then
      match rest with
      | 'a' :: 'm' :: 'p' :: ';' :: rest2 => (unescapeRun rest2).map (fun l => '&' :: l)
      | 'l' :: 't' :: ';' :: rest2 => (unescapeRun rest2).map (fun l => '<' :: l)
      | 'g' :: 't' :: ';' :: rest2 => (unescapeRun rest2).map (fun l => '>' :: l)
      | 'a' :: 'p' :: 'o' :: 's' :: ';' :: rest2 =>
        (unescapeRun rest2).map (fun l => aposChar :: l)
      | 'q' :: 'u' :: 'o' :: 't' :: ';' :: rest2 => (unescapeRun rest2).map (fun l => '"' :: l)
      | _ => none
    else (unescapeRun rest).map (fun l => c :: l)

/-- First value bound to a key in an ordered attribute list. -/
def lookupAttr (attrs : List (String × String)) (k : String) : Option String :=
  match attrs with
  | [] => none
  | kv :: rest => if kv.1 == k then some kv.2 else lookupAttr rest k

/-- One run of character data up to the next `<` (or the end of input),
decoded; an empty run yields `none` (absent text/tail), as in lxml. -/
def parseRun (cs : List Char) : Option (Option String × List Char) :=
  let rt := spanP (fun x => !(x == '<')) cs
  match unescapeRun rt.1 with
  | none => none
  | some txt => some (if rt.1.isEmpty then none else some (String.mk txt), rt.2)

/-- One ` name="value"` attribute after its leading whitespace has been
consumed: `some none` when no name starts here (the attribute list is
over), `none` on malformed syntax or a raw `<` inside the value (a parse
error, as in XML). -/
def parseOneAttr (cs : List Char) : Option (Option ((String × String) × List Char)) :=
  let r := spanP isNameChar cs
  if r.1.isEmpty then some none
  else
    match r.2 with
    | '=' :: '"' :: cs4 =>
      let rv := spanP (fun x => !(x == '"')) cs4
      match rv.2 with
      | '"' :: cs6 =>
        if rv.1.contains '<' then none
        else
          match unescapeRun rv.1 with
          | none => none
          | some v => some (some ((String.mk r.1, String.mk v), cs6))
      | _ => none
    | _ => none

/-- Parse zero or more ` name="value"` attributes; stops (without
consuming) at the first character that is not whitespace, and after
whitespace that is not followed by a name. -/
def parseAttrs : Nat → List Char → Option (List (String × String) × List Char)
  | 0, _ => none
  | fuel + 1, cs =>
    match cs with
    | [] => some ([], [])
    | c :: cs1 =>
      if isWsChar c then
        let cs2 := cs1.dropWhile isWsChar
        match parseOneAttr cs2 with
        | none => none
        | some none => some ([], cs2)
        | some (some (attr, cs6)) =>
          (parseAttrs fuel cs6).map (fun pr => (attr :: pr.1, pr.2))
      else some ([], cs)

/-- The namespace, qualified tag and retained attribute set an element
gets from its raw attribute list: an `xmlns` attribute (re)binds the
default namespace and is not kept as an attribute (lxml keeps namespace
declarations out of `attrib`); the tag is qualified as `\x7buri\x7dlocal`. -/
def buildTag (u : String) (nameL : List Char) (attrs : List (String × String)) :
    String × String × List (String × String) :=
  let uHere := (lookupAttr attrs "xmlns").getD u
  (uHere,
    if uHere.isEmpty then String.mk nameL
    else String.mk (lbraceChar :: (uHere.data ++ rbraceChar :: nameL)),
    attrs.filter (fun kv => !(kv.1 == "xmlns")))

/-- A closing tag `</name>` whose name must match the opening tag. -/
def parseCloseTag (nameL : List Char) (cs : List Char) : Option (List Char) :=
  match cs with
  | '<' :: '/' :: csC =>
    let rc := spanP isNameChar csC
    if rc.1 == nameL then
      match rc.2 with
      | '>' :: rest2 => some rest2
      | _ => none
    else none
  | _ => none

/-- Update a node's tail. -/
def setTail : Node → Option String → Node
  | .element tag attrs text children _, tl => .element tag attrs text children tl
  | .comment text _, tl => .comment text tl

/-- The text the serializer emits for an element's leading text slot. -/
def textEmit (text : Option String) : String :=
  match text with
  | some s => saxEscape s
  | none => ""

/-- The part of an element's serialization after its attribute list:
either the self-closing `/>` or `>`, text, children and the close tag. -/
def contentEmit (localTag : String) (text : Option String) (children : List Node) :
    List Char :=
  if truthyOptStr text || !children.isEmpty then
    '>' :: ((textEmit text).data ++ ((serializeList children).data ++
      '<' :: '/' :: (localTag.data ++ ['>'])))
  else ['/', '>']

/-- The trailing part of a node's serialization after its core: the tail
fallback for content elements, the tail for comments, nothing for
self-closed elements. -/
def tailEmitN : Node → List Char
  | .element tag attrs text children tail =>
    if has_content (.element tag attrs text children tail) then (pyOrStr tail "\n").data
    else []
  | .comment _ tail => (pyOrStr tail "").data

/-- The parser's mutually recursive entry points, fused into one
fuel-indexed function so that recursion is structural (and therefore
computable by the kernel): `el` parses one element from `<`, `content`
parses an element's body after its attribute list given the surrounding
default namespace, the open-tag name and the already-built tag and
attribute list, `nodes` parses a sibling run (elements and comments with
their tails) up to a closing `</`. -/
inductive PMode where
  | el (u : String)
  | content (u : String) (nameL : List Char) (tag : String)
      (attrs : List (String × String))
  | nodes (u : String)

inductive PRes where
  | el (n : Node) (rest : List Char)
  | nodes (ns : List Node) (rest : List Char)

/-- Project a parse result expected to be a sibling run. -/
def asNodes : Option PRes → Option (List Node × List Char)
  | some (.nodes ns rest) => some (ns, rest)
  | _ => none

/-- Project a parse result expected to be a single element. -/
def asEl : Option PRes → Option (Node × List Char)
  | some (.el n rest) => some (n, rest)
  | _ => none

def parseF : Nat → PMode → List Char → Option PRes
  | 0, _, _ => none
  | fuel + 1, .el u, cs =>
    match cs with
    | '<' :: cs1 =>
      let rn := spanP isNameChar cs1
      if rn.1.isEmpty then none
      else
        (parseAttrs fuel rn.2).bind (fun ac =>
          parseF fuel (.content (buildTag u rn.1 ac.1).1 rn.1
            (buildTag u rn.1 ac.1).2.1 (buildTag u rn.1 ac.1).2.2) ac.2)
    | _ => none
  | fuel + 1, .content u nameL tag attrs, cs =>
    match cs with
    | '/' :: '>' :: rest => some (.el (.element tag attrs none [] none) rest)
    | '>' :: rest =>
      (parseRun rest).bind (fun pr =>
        (asNodes (parseF fuel (.nodes u) pr.2)).bind (fun ch =>
          (parseCloseTag nameL ch.2).map (fun rest2 =>
            .el (.element tag attrs pr.1 ch.1 none) rest2)))
    | _ => none
  | fuel + 1, .nodes u, cs =>
    match cs with
    | '<' :: '/' :: rest => some (.nodes [] ('<' :: '/' :: rest))
    | '<' :: '!' :: '-' :: '-' :: cs1 =>
      (splitAtSub ['-', '-', '>'] cs1).bind (fun pr =>
        (parseRun pr.2).bind (fun tl =>
          (asNodes (parseF fuel (.nodes u) tl.2)).map (fun sib =>
            .nodes (Node.comment (String.mk pr.1) tl.1 :: sib.1) sib.2)))
    | _ =>
      (asEl (parseF fuel (.el u) cs)).bind (fun nr =>
        (parseRun nr.2).bind (fun tl =>
          (asNodes (parseF fuel (.nodes u) tl.2)).map (fun sib =>
            .nodes (setTail nr.1 tl.1 :: sib.1) sib.2)))

/-- Drop leading whitespace. -/
def skipWsL (cs : List Char) : List Char := cs.dropWhile isWsChar

/-- Parse one element starting at `<`, under default namespace `u`. -/
def parseElementTop (u : String) (fuel : Nat) (cs : List Char) :
    Option (Node × List Char) :=
  asEl (parseF fuel (.el u) cs)

/-- Modelled from the spec: parsing file bytes into a Document (spec §3,
§4.4; the source delegates to `lxml.etree.parse`, external to the
repository).  An optional XML declaration is skipped, the single root
element is parsed with no surrounding default namespace, and only
whitespace may follow the root (lxml rejects trailing content and does
not expose trailing whitespace as a tail, so the root's tail is `none`). -/
def parseDocument (s : String) : Option XDoc :=
  let cs0 := s.data
  let cs1opt : Option (List Char) :=
    match matchLit ['<', '?', 'x', 'm', 'l'] cs0 with
    | some rest =>
      match splitAtSub ['?', '>'] rest with
      | some pr => some (skipWsL pr.2)
      | none => none
    | none => some (skipWsL cs0)
  match cs1opt with
  | none => none
  | some cs1 =>
    match parseElementTop "" (3 * cs1.length + 3) cs1 with
    | some (.element tag attrs text children _, rest) =>
      if (skipWsL rest).isEmpty then some ⟨tag, attrs, text, children, none⟩
      else none
    | _ => none

/- ### The canonical image of a tree under parse-after-serialize. -/

/-- Empty text parses back as absent text. -/
def normText : Option String → Option String
  | none => none
  | some t => if t.isEmpty then none else some t

/-- The tail a node carries after its serialization is re-parsed: a
self-closed element's tail was dropped; a content element's tail was
emitted as `tail or "\n"`; a comment's tail was emitted as `tail or ""`. -/
def canonTail : Node → Option String
  | .element tag attrs text children tail =>
    if has_content (.element tag attrs text children tail) then
      some (pyOrStr tail "\n")
    else none
  | .comment _ tail =>
    match tail with
    | none => none
    | some t => if t.isEmpty then none else some t

mutual

/-- The node rebuilt by parsing the node's own serialization (tail left
`none`; tails are attached by the sibling walk). -/
def canonNode : Node → Node
  | .element tag attrs text children _ =>
    .element tag attrs (normText text) (canonList children) none
  | .comment text _ => .comment text none

/-- The sibling run rebuilt by parsing, with tails re-attached. -/
def canonList : List Node → List Node
  | [] => []
  | n :: ns => setTail (canonNode n) (canonTail n) :: canonList ns

end

/-- The document rebuilt by parsing its serialization. -/
def canonDoc (d : XDoc) : XDoc :=
  ⟨d.rootTag, d.rootAttrs, normText d.rootText, canonList d.rootChildren, none⟩

/- ### Well-formedness for the byte-exact round trip.  These are the
conditions forced by the serializer's output format: attribute values are
emitted unescaped, tails and comments verbatim, so a second parse
reproduces the bytes only when those parts contain no markup
characters. -/

def validNameStr (s : String) : Bool := !s.isEmpty && s.data.all isNameChar

def validAttrVal (v : String) : Bool :=
  v.data.all (fun c => !(c == '&') && !(c == '<') && !(c == '"'))

def validTailStr (v : String) : Bool :=
  v.data.all (fun c => !(c == '&') && !(c == '<'))

def validTailOpt : Option String → Bool
  | none => true
  | some t => validTailStr t

/-- The comment's content must not make `-->` match early. -/
def commentOk (t : String) : Bool :=
  decide (splitAtSub ['-', '-', '>'] (t.data ++ ['-', '-', '>']) = some (t.data, []))

/-- A namespace URI usable in the round trip: printable inside an
attribute value and free of the `\x7d` that closes lxml's tag prefix. -/
def nsUriOk (u : String) : Bool :=
  u.data.all (fun c =>
    !(c == rbraceChar) && !(c == '&') && !(c == '<') && !(c == '"'))

/-- A tag consistent with the surrounding default namespace `u`: the
plain local name when `u` is empty, `\x7bu\x7dlocal` otherwise. -/
def tagOk (u : String) (tag : String) : Bool :=
  if u.isEmpty then validNameStr tag
  else
    match matchLit (lbraceChar :: (u.data ++ [rbraceChar])) tag.data with
    | some loc => !loc.isEmpty && loc.all isNameChar
    | none => false

def attrOk (kv : String × String) : Bool :=
  validNameStr kv.1 && !(kv.1 == "xmlns") && validAttrVal kv.2

mutual

/-- Round-trip well-formedness of a node under default namespace `u`. -/
def wfNode (u : String) : Node → Bool
  | .element tag attrs _ children tail =>
    tagOk u tag && attrs.all attrOk && wfList u children && validTailOpt tail
  | .comment text tail => commentOk text && validTailOpt tail

def wfList (u : String) : List Node → Bool
  | [] => true
  | n :: ns => wfNode u n && wfList u ns

end

/-- The root's tail must reparse to the serializer's newline fallback. -/
def rootTailOk : Option String → Bool
  | none => true
  | some t => t.isEmpty || t == "\n"

/-- The default namespace of a document, as the serializer decides it. -/
def docNs (d : XDoc) : String := if pyIn SF_NS d.rootTag then SF_NS else ""

/-- Round-trip well-formedness of a document. -/
def wfDoc (d : XDoc) : Bool :=
  tagOk (docNs d) d.rootTag && d.rootAttrs.all attrOk &&
    wfList (docNs d) d.rootChildren && rootTailOk d.rootTail

/- ### Fuel accounting for the parser. -/

mutual

def eSize : Node → Nat
  | .element _ attrs _ children _ => attrs.length + nSize children + 3
  | .comment _ _ => 1

def nSize : List Node → Nat
  | [] => 1
  | n :: ns => eSize n + nSize ns + 1

end

/- ### Claim-side definitions (written from the spec's words, for
comparison against the source's behavior). -/

/-- The namespace URI a qualified lxml tag belongs to (the spec's "the
root element's original tag belonged to the producer namespace URI"):
for tags of the form `\x7buri\x7dlocal` the `uri` part, otherwise none. -/
def nsOfTag (tag : String) : Option String :=
  match tag.data with
  | c :: rest =>
    if c == lbraceChar then
      if rest.contains rbraceChar then
        some (String.mk (rest.takeWhile (fun x => !(x == rbraceChar))))
      else none
    else none
  | [] => none

/-- The attribute rendering the spec claims the serializer uses: each
value escaped with the five-entity map.  Compared against the source's
`attrsString`, which inserts values verbatim. -/
def attrsStringSpec (attrs : List (String × String)) : String :=
  (attrs.map (fun kv => " " ++ kv.1 ++ "=\"" ++ saxEscape kv.2 ++ "\"")).foldr
    (fun a b => a ++ b) ""

/-- Key membership in an ordered attribute list. -/
def hasAttrKey (attrs : List (String × String)) (k : String) : Bool :=
  attrs.any (fun kv => kv.1 == k)

/-- Number of entries with the given key. -/
def countAttrKey (attrs : List (String × String)) (k : String) : Nat :=
  (attrs.filter (fun kv => kv.1 == k)).length

/-- A plain (non-namespaced) well-formed document, used as a concrete
round-trip witness. -/
def sampleDocPlain : XDoc := ⟨"a", [], none, [], none⟩

/-- A producer-namespace document with an attribute, leading text, a child
element and a comment, used as a concrete round-trip witness. -/
def sampleDocSF : XDoc :=
  ⟨"\x7bhttp://soap.sforce.com/2006/04/metadata\x7dLayout", [("k", "v")], some "\n  ",
    [.element "\x7bhttp://soap.sforce.com/2006/04/metadata\x7dfield" [] (some "Name")
      [] (some "\n"),
     .comment "a note" (some "\n")], none⟩

/- ### General helper lemmas. -/

theorem strData_append (s t : String) : (s ++ t).data = s.data ++ t.data := rfl

theorem strLength_append (s t : String) : (s ++ t).length = s.length + t.length :=
  List.length_append s.data t.data

theorem pyOrStr_length_pos (x : Option String) : 1 ≤ (pyOrStr x "\n").length := by
  cases x with
  | none => decide
  | some s =>
    show 1 ≤ (if s.isEmpty then "\n" else s).length
    by_cases h : s.isEmpty
    · rw [if_pos h]; decide
    · rw [if_neg h]
      rcases hs : s.data with _ | ⟨c, cs⟩
      · exact absurd ((String.isEmpty_iff s).mpr (String.ext hs)) h
      · show 1 ≤ s.data.length
        rw [hs]
        exact Nat.succ_le_succ (Nat.zero_le _)

/-- Unfolding of `serializeNode` on an element. -/
theorem serializeNode_element (tag : String) (attrs : List (String × String))
    (text : Option String) (children : List Node) (tail : Option String) :
    serializeNode (.element tag attrs text children tail) =
      if !has_content (.element tag attrs text children tail) then
        "<" ++ stripNsTag tag ++ attrsString attrs ++ "/>"
      else
        "<" ++ stripNsTag tag ++ attrsString attrs ++ ">" ++
          (match text with | some s => saxEscape s | none => "") ++
          serializeList children ++ "</" ++ stripNsTag tag ++ ">" ++
          pyOrStr tail "\n" := rfl

/-- Unfolding of `serializeNode` on a comment. -/
theorem serializeNode_comment (text : String) (tail : Option String) :
    serializeNode (.comment text tail) = commentStr text ++ pyOrStr tail "" := rfl

theorem serializeList_nil : serializeList [] = "" := rfl

theorem serializeList_cons (n : Node) (ns : List Node) :
    serializeList (n :: ns) = serializeNode n ++ serializeList ns := rfl

/- ### C1 -/

/-- C1: the claim states the file is rewritten only when the serialized
content differs from the original bytes.  In the source the comparison is
`orig != processed` with `orig : bytes` and `processed : str`; under
Python 3 cross-type inequality this is `True` for every pair, so the file
is rewritten even when `orig` is exactly the UTF-8 encoding of
`processed` — the conditional write is dead code and the claim fails on
the code (while clearly stating the code's intent). -/
theorem c1_write_condition_always_true (d : XDoc) :
    file_rewritten (utf8Bytes (salesforce_encoding d)) (salesforce_encoding d) = true := rfl

/- ### C9 -/

/-- C9: option initialization raises exactly when: an xpath is given
without a path, a path without an xpath, both a path and a (non-empty)
elements list, or neither a path nor an elements list; a (path, xpath)
pair alone, or an elements list alone, passes. -/
theorem c9_option_validation (xpath path : Option String)
    (elements : Option (List (String × String))) :
    init_options_raises xpath path elements = true ↔
      ((truthyOptStr xpath = true ∧ truthyOptStr path = false) ∨
        (truthyOptStr path = true ∧ truthyOptStr xpath = false) ∨
        (truthyOptStr path = true ∧ truthyOptList elements = true) ∨
        (truthyOptStr path = false ∧ truthyOptList elements = false)) := by
  unfold init_options_raises
  cases hx : truthyOptStr xpath <;> cases hp : truthyOptStr path <;>
    cases he : truthyOptList elements <;> simp

/- ### C10 -/

/-- C10: an element that serializes self-closed (no children, no
non-empty leading text) contributes exactly `<tag attrs/>`: its tail, if
any, is entirely absent from the output, and so is the newline fallback
emitted after non-self-closed elements. -/
theorem c10_selfclosed_drops_tail (tag : String) (attrs : List (String × String))
    (text : Option String) (tail : Option String) (h : truthyOptStr text = false) :
    serializeNode (.element tag attrs text [] tail) =
      "<" ++ stripNsTag tag ++ attrsString attrs ++ "/>" := by
  rw [serializeNode_element]
  have hc : has_content (.element tag attrs text [] tail) = false := by
    show (truthyOptStr text || !([] : List Node).isEmpty) = false
    rw [h]
    rfl
  rw [hc]
  rfl

theorem c10_selfclosed_drops_tail_witness :
    truthyOptStr (none : Option String) = false ∧
      serializeNode (.element "a" [] none [] (some "THE TAIL")) = "<a/>" :=
  ⟨rfl, c10_selfclosed_drops_tail "a" [] none (some "THE TAIL") rfl⟩

/- ### C5 -/

/-- C5: an element serializes as the self-closed form `<tag attrs/>` —
with its attributes, no close tag, no text and no tail — if and only if
it has no child nodes and no non-empty leading text. -/
theorem c5_self_closing_iff (tag : String) (attrs : List (String × String))
    (text : Option String) (children : List Node) (tail : Option String) :
    serializeNode (.element tag attrs text children tail) =
      "<" ++ stripNsTag tag ++ attrsString attrs ++ "/>" ↔
      (children = [] ∧ truthyOptStr text = false) := by
  rw [serializeNode_element]
  by_cases hc : has_content (.element tag attrs text children tail) = true
  · rw [hc]
    show ("<" ++ stripNsTag tag ++ attrsString attrs ++ ">" ++ _ ++ _ ++ "</" ++
        stripNsTag tag ++ ">" ++ pyOrStr tail "\n" =
        "<" ++ stripNsTag tag ++ attrsString attrs ++ "/>") ↔ _
    constructor
    · intro h
      exfalso
      have hl := congrArg String.length h
      simp only [strLength_append] at hl
      have h1 := pyOrStr_length_pos tail
      have h2 : ("</" : String).length = 2 := rfl
      have h3 : (">" : String).length = 1 := rfl
      have h4 : ("/>" : String).length = 2 := rfl
      omega
    · intro ⟨h1, h2⟩
      exfalso
      have : has_content (.element tag attrs text children tail) = false := by
        subst h1
        show (truthyOptStr text || !([] : List Node).isEmpty) = false
        rw [h2]
        rfl
      rw [this] at hc
      exact Bool.false_ne_true hc
  · rw [Bool.not_eq_true] at hc
    rw [hc]
    show ("<" ++ stripNsTag tag ++ attrsString attrs ++ "/>" =
        "<" ++ stripNsTag tag ++ attrsString attrs ++ "/>") ↔ _
    have hc2 : (truthyOptStr text || !children.isEmpty) = false := hc
    rcases Bool.or_eq_false_iff.mp hc2 with ⟨ht, hch⟩
    have hne : children = [] := by
      cases children with
      | nil => rfl
      | cons a l => simp at hch
    simp [hne, ht]

/- ### Escaping lemmas. -/

set_option maxHeartbeats 1000000 in
theorem unescapeRun_cons_ne (c : Char) (xs : List Char) (h : ¬c = '&') :
    unescapeRun (c :: xs) = (unescapeRun xs).map (fun l => c :: l) := by
  have hb : (c == '&') = false := by simpa using h
  rw [unescapeRun.eq_def]
  split
  next heq => exact absurd heq (by simp)
  next c2 rest2 heq =>
    injection heq with h1 h2
    subst h1
    subst h2
    rw [hb]
    rfl

/-- Decoding inverts the serializer's escaping: every one of the five
special characters is represented by exactly its entity, and every other
character by itself. -/
theorem unescapeRun_escape (l : List Char) : unescapeRun (l.flatMap escCharL) = some l := by
  induction l with
  | nil => rfl
  | cons c rest ih =>
    show unescapeRun (escCharL c ++ rest.flatMap escCharL) = some (c :: rest)
    by_cases h1 : c = '&'
    · subst h1
      show unescapeRun ('&' :: 'a' :: 'm' :: 'p' :: ';' :: rest.flatMap escCharL) = _
      rw [show unescapeRun ('&' :: 'a' :: 'm' :: 'p' :: ';' :: rest.flatMap escCharL) =
        (unescapeRun (rest.flatMap escCharL)).map (fun l => '&' :: l) from rfl, ih]
      rfl
    · by_cases h2 : c = '<'
      · subst h2
        show unescapeRun ('&' :: 'l' :: 't' :: ';' :: rest.flatMap escCharL) = _
        rw [show unescapeRun ('&' :: 'l' :: 't' :: ';' :: rest.flatMap escCharL) =
          (unescapeRun (rest.flatMap escCharL)).map (fun l => '<' :: l) from rfl, ih]
        rfl
      · by_cases h3 : c = '>'
        · subst h3
          show unescapeRun ('&' :: 'g' :: 't' :: ';' :: rest.flatMap escCharL) = _
          rw [show unescapeRun ('&' :: 'g' :: 't' :: ';' :: rest.flatMap escCharL) =
            (unescapeRun (rest.flatMap escCharL)).map (fun l => '>' :: l) from rfl, ih]
          rfl
        · by_cases h4 : c = aposChar
          · subst h4
            show unescapeRun ('&' :: 'a' :: 'p' :: 'o' :: 's' :: ';' :: rest.flatMap escCharL) = _
            rw [show unescapeRun ('&' :: 'a' :: 'p' :: 'o' :: 's' :: ';' :: rest.flatMap escCharL) =
              (unescapeRun (rest.flatMap escCharL)).map (fun l => aposChar :: l) from rfl, ih]
            rfl
          · by_cases h5 : c = '"'
            · subst h5
              show unescapeRun ('&' :: 'q' :: 'u' :: 'o' :: 't' :: ';' :: rest.flatMap escCharL) = _
              rw [show unescapeRun ('&' :: 'q' :: 'u' :: 'o' :: 't' :: ';' :: rest.flatMap escCharL) =
                (unescapeRun (rest.flatMap escCharL)).map (fun l => '"' :: l) from rfl, ih]
              rfl
            · have he : escCharL c = [c] := by
                unfold escCharL
                rw [if_neg (by simpa using h1), if_neg (by simpa using h2),
                  if_neg (by simpa using h3), if_neg (by simpa using h4),
                  if_neg (by simpa using h5)]
              rw [he]
              show unescapeRun (c :: rest.flatMap escCharL) = _
              rw [unescapeRun_cons_ne c _ h1, ih]
              rfl

/-- Decoding a run with no ampersands returns it unchanged. -/
theorem unescapeRun_no_amp (l : List Char) (h : ∀ c ∈ l, ¬c = '&') :
    unescapeRun l = some l := by
  induction l with
  | nil => rfl
  | cons c rest ih =>
    rw [unescapeRun_cons_ne c rest (h c (List.mem_cons_self c rest))]
    rw [ih (fun x hx => h x (List.mem_cons_of_mem c hx))]
    rfl

/- ### C2 -/

/-- C2 counterexample: the claim says every emitted attribute value has
`&` (among the five characters) escaped; the serializer inserts attribute
values verbatim, so the value `a&b` reaches the output with a raw
ampersand, differing from the escaped rendering the spec requires. -/
theorem c2_counterexample :
    salesforce_encoding ⟨"r", [("k", "a&b")], none, [], none⟩ =
      xml_encoding ++ "<r k=\"a&b\"/>" ∧
    attrsString [("k", "a&b")] ≠ attrsStringSpec [("k", "a&b")] :=
  ⟨rfl, by decide⟩

/-- C2 amended: the element's leading text is escaped with the exact
five-entity map (and that map faithfully represents the five characters:
decoding inverts it, and the five characters map to `&amp;`, `&lt;`,
`&gt;`, `&apos;`, `&quot;` in turn); attribute values, however, are
emitted verbatim with no escaping. -/
theorem c2_amended (tag : String) (attrs : List (String × String)) (t : String)
    (children : List Node) (tail : Option String)
    (h : has_content (.element tag attrs (some t) children tail) = true) :
    serializeNode (.element tag attrs (some t) children tail) =
      "<" ++ stripNsTag tag ++ attrsString attrs ++ ">" ++ saxEscape t ++
        serializeList children ++ "</" ++ stripNsTag tag ++ ">" ++
        pyOrStr tail "\n" ∧
    unescapeRun (saxEscape t).data = some t.data ∧
    saxEscape (String.mk ['&', '<', '>', aposChar, '"']) =
      "&amp;&lt;&gt;" ++ aposEntity ++ "&quot;" := by
  refine ⟨?_, unescapeRun_escape t.data, by decide⟩
  rw [serializeNode_element, h]
  rfl

theorem c2_amended_witness :
    has_content (.element "r" [] (some "x") [] none) = true ∧
      (serializeNode (.element "r" [] (some "x") [] none) =
        "<" ++ stripNsTag "r" ++ attrsString [] ++ ">" ++ saxEscape "x" ++
          serializeList [] ++ "</" ++ stripNsTag "r" ++ ">" ++ pyOrStr none "\n" ∧
        unescapeRun (saxEscape "x").data = some "x".data ∧
        saxEscape (String.mk ['&', '<', '>', aposChar, '"']) =
          "&amp;&lt;&gt;" ++ aposEntity ++ "&quot;") :=
  ⟨rfl, c2_amended "r" [] "x" [] none rfl⟩

/- ### Attribute-map lemmas. -/

theorem hasAttrKey_setAttrib (a : List (String × String)) (k v : String) :
    hasAttrKey (setAttrib a k v) k = true := by
  unfold setAttrib hasAttrKey
  by_cases h : a.any (fun kv => kv.1 == k)
  · rw [if_pos h]
    rw [List.any_eq_true] at h ⊢
    rcases h with ⟨x, hx, hk⟩
    refine ⟨(x.1, v), List.mem_map.mpr ⟨x, hx, ?_⟩, hk⟩
    rw [if_pos hk]
  · rw [if_neg h]
    rw [List.any_append]
    simp

theorem countAttrKey_map_set (a : List (String × String)) (k v : String) :
    countAttrKey (a.map (fun kv => if kv.1 == k then (kv.1, v) else kv)) k =
      countAttrKey a k := by
  induction a with
  | nil => rfl
  | cons kv rest ih =>
    unfold countAttrKey at *
    by_cases hk : kv.1 = k
    all_goals simp at ih
    · simp [List.filter_cons, hk, ih]
    · simp [List.filter_cons, hk, ih]

theorem countAttrKey_setAttrib (a : List (String × String)) (k v : String) :
    countAttrKey (setAttrib a k v) k =
      if hasAttrKey a k then countAttrKey a k else countAttrKey a k + 1 := by
  unfold setAttrib hasAttrKey
  by_cases h : a.any (fun kv => kv.1 == k)
  · rw [if_pos h, if_pos h]
    exact countAttrKey_map_set a k v
  · rw [if_neg h, if_neg h]
    unfold countAttrKey
    rw [List.filter_append]
    simp

theorem setAttrib_of_not_has (a : List (String × String)) (k v : String)
    (h : a.any (fun kv => kv.1 == k) = false) :
    setAttrib a k v = a ++ [(k, v)] := by
  unfold setAttrib
  rw [h]
  rfl

theorem setAttrib_setAttrib (a : List (String × String)) (k v : String) :
    setAttrib (setAttrib a k v) k v = setAttrib a k v := by
  by_cases h : a.any (fun kv => kv.1 == k)
  · have h1 : setAttrib a k v = a.map (fun kv => if kv.1 == k then (kv.1, v) else kv) := by
      unfold setAttrib; rw [if_pos h]
    have h2 : (setAttrib a k v).any (fun kv => kv.1 == k) = true := hasAttrKey_setAttrib a k v
    rw [h1] at h2 ⊢
    unfold setAttrib
    rw [if_pos h2, List.map_map]
    apply List.map_congr_left
    intro x _
    by_cases hx : x.1 = k
    · simp [Function.comp_apply, hx]
    · simp [Function.comp_apply, hx]
  · have hfalse : a.any (fun kv => kv.1 == k) = false := Bool.eq_false_iff.mpr h
    have h1 : setAttrib a k v = a ++ [(k, v)] := setAttrib_of_not_has a k v hfalse
    have h2 : (setAttrib a k v).any (fun kv => kv.1 == k) = true := hasAttrKey_setAttrib a k v
    rw [h1] at h2 ⊢
    unfold setAttrib
    rw [if_pos h2, List.map_append]
    have h4 : a.map (fun kv => if kv.1 == k then (kv.1, v) else kv) = a := by
      have hall := (List.any_eq_false).mp hfalse
      conv_rhs => rw [show a = a.map id from (List.map_id a).symm]
      apply List.map_congr_left
      intro x hx
      rw [if_neg (hall x hx)]
      rfl
    rw [h4]
    simp

/- ### C6 -/

/-- C6 counterexample: the claim ties the forced `xmlns` attribute to the
root tag *belonging* to the producer namespace URI; the code tests
substring membership (`SF_NS in tag`).  A root tag in the distinct
namespace `http://soap.sforce.com/2006/04/metadataX` does not belong to
the producer namespace, yet the serializer still forces
`xmlns="<producer URI>"` onto it. -/
theorem c6_counterexample :
    nsOfTag "\x7bhttp://soap.sforce.com/2006/04/metadataX\x7dFoo" ≠ some SF_NS ∧
      hasAttrKey
        (salesforce_encoding_tree
          ⟨"\x7bhttp://soap.sforce.com/2006/04/metadataX\x7dFoo", [], some "x", [], none⟩).rootAttrs
        "xmlns" = true := by
  constructor
  · decide
  · decide

/-- C6 amended: the serializer forces `xmlns="<producer URI>"` onto the
root's attribute set exactly when the producer namespace URI occurs as a
*substring* of the root's original tag (for lxml-parsed documents whose
root is in the producer namespace the tag is `\x7bURI\x7dlocal`, so
belonging implies the substring test, but not conversely): afterwards the
root carries an `xmlns` key iff the substring test held or the key was
already present, an absent key is added (count goes up by one), a present
key is overwritten in place (count unchanged), and no other component of
the document — in particular no non-root element — is touched. -/
theorem c6_amended (d : XDoc) :
    (salesforce_encoding_tree d).rootTag = d.rootTag ∧
    (salesforce_encoding_tree d).rootText = d.rootText ∧
    (salesforce_encoding_tree d).rootChildren = d.rootChildren ∧
    (salesforce_encoding_tree d).rootTail = d.rootTail ∧
    hasAttrKey (salesforce_encoding_tree d).rootAttrs "xmlns" =
      (pyIn SF_NS d.rootTag || hasAttrKey d.rootAttrs "xmlns") ∧
    countAttrKey (salesforce_encoding_tree d).rootAttrs "xmlns" =
      (if pyIn SF_NS d.rootTag && !hasAttrKey d.rootAttrs "xmlns" then
        countAttrKey d.rootAttrs "xmlns" + 1
      else countAttrKey d.rootAttrs "xmlns") := by
  unfold salesforce_encoding_tree
  by_cases h : pyIn SF_NS d.rootTag
  · rw [if_pos h]
    refine ⟨rfl, rfl, rfl, rfl, ?_, ?_⟩
    · show hasAttrKey (setAttrib d.rootAttrs "xmlns" SF_NS) "xmlns" = _
      rw [hasAttrKey_setAttrib, h]
      rfl
    · show countAttrKey (setAttrib d.rootAttrs "xmlns" SF_NS) "xmlns" = _
      rw [countAttrKey_setAttrib, h]
      by_cases h2 : hasAttrKey d.rootAttrs "xmlns"
      · simp [h2]
      · simp [Bool.eq_false_iff.mpr h2]
  · rw [if_neg h]
    have hf : pyIn SF_NS d.rootTag = false := Bool.eq_false_iff.mpr h
    refine ⟨rfl, rfl, rfl, rfl, ?_, ?_⟩
    · rw [hf]
      rfl
    · rw [hf]
      rfl

/- ### C8 -/

/-- C8 counterexample: serialization is claimed to leave the document
tree unchanged, but serializing a document whose root tag contains the
producer namespace URI adds an `xmlns` attribute to the root's (initially
empty) attribute set. -/
theorem c8_counterexample :
    (salesforce_encoding_tree
      ⟨"\x7bhttp://soap.sforce.com/2006/04/metadata\x7dLayout", [], some "x", [], none⟩).rootAttrs ≠
      ([] : List (String × String)) := by
  decide

theorem salesforce_encoding_tree_idem (d : XDoc) :
    salesforce_encoding_tree (salesforce_encoding_tree d) = salesforce_encoding_tree d := by
  unfold salesforce_encoding_tree
  by_cases h : pyIn SF_NS d.rootTag
  · rw [if_pos h]
    have h2 : pyIn SF_NS ({ d with rootAttrs := setAttrib d.rootAttrs "xmlns" SF_NS } : XDoc).rootTag = true := h
    rw [if_pos h2]
    show ({ d with rootAttrs := setAttrib (setAttrib d.rootAttrs "xmlns" SF_NS) "xmlns" SF_NS } : XDoc) = _
    rw [setAttrib_setAttrib]
  · rw [if_neg h, if_neg h]

/-- C8 amended: serialization's only effect on the tree is on the root's
attribute set (the forced `xmlns`, see the C6 theorem); the root's tag,
text, children and tail — and hence every non-root node — are unchanged.
The output is a pure function of the tree (`salesforce_encoding` is a
function, so identical trees give identical bytes), and serializing the
post-serialization tree again produces the same bytes. -/
theorem c8_amended (d : XDoc) :
    (salesforce_encoding_tree d).rootTag = d.rootTag ∧
    (salesforce_encoding_tree d).rootText = d.rootText ∧
    (salesforce_encoding_tree d).rootChildren = d.rootChildren ∧
    (salesforce_encoding_tree d).rootTail = d.rootTail ∧
    salesforce_encoding (salesforce_encoding_tree d) = salesforce_encoding d := by
  refine ⟨?_, ?_, ?_, ?_, ?_⟩
  · unfold salesforce_encoding_tree
    by_cases h : pyIn SF_NS d.rootTag
    · rw [if_pos h]
    · rw [if_neg h]
  · unfold salesforce_encoding_tree
    by_cases h : pyIn SF_NS d.rootTag
    · rw [if_pos h]
    · rw [if_neg h]
  · unfold salesforce_encoding_tree
    by_cases h : pyIn SF_NS d.rootTag
    · rw [if_pos h]
    · rw [if_neg h]
  · unfold salesforce_encoding_tree
    by_cases h : pyIn SF_NS d.rootTag
    · rw [if_pos h]
    · rw [if_neg h]
  · unfold salesforce_encoding
    rw [salesforce_encoding_tree_idem]

/- ### C3 -/

set_option maxRecDepth 100000 in
/-- C3 counterexample: parsing the scenario document, removing every
`ns:relatedLists` descendant and serializing does *not* produce the
claimed self-closed root.  The root's leading whitespace text `"\n  "`
survives the removal, so `has_content` stays truthy and the root is
serialized with an open and a close tag around that whitespace. -/
theorem c3_counterexample :
    ((parseDocument "<?xml version=\"1.0\" encoding=\"UTF-8\"?>\n<Layout xmlns=\"http://soap.sforce.com/2006/04/metadata\">\n  <relatedLists>\n    <field>Name</field>\n  </relatedLists>\n</Layout>\n").map
        (fun d => salesforce_encoding
          (removeByTagDoc "\x7bhttp://soap.sforce.com/2006/04/metadata\x7drelatedLists" d)) =
      some "<?xml version=\"1.0\" encoding=\"UTF-8\"?>\n<Layout xmlns=\"http://soap.sforce.com/2006/04/metadata\">\n  </Layout>\n") ∧
    (some "<?xml version=\"1.0\" encoding=\"UTF-8\"?>\n<Layout xmlns=\"http://soap.sforce.com/2006/04/metadata\">\n  </Layout>\n" ≠
      some "<?xml version=\"1.0\" encoding=\"UTF-8\"?>\n<Layout xmlns=\"http://soap.sforce.com/2006/04/metadata\"/>\n") :=
  ⟨rfl, by decide⟩

set_option maxRecDepth 100000 in
/-- C3 amended: on the scenario document the pipeline (parse, remove all
`ns:relatedLists` matches, serialize) produces exactly the header plus
`<Layout xmlns="...">`, the surviving leading whitespace `"\n  "`, and
`</Layout>` with the newline fallback — not a self-closed root. -/
theorem c3_amended_scenario :
    (parseDocument "<?xml version=\"1.0\" encoding=\"UTF-8\"?>\n<Layout xmlns=\"http://soap.sforce.com/2006/04/metadata\">\n  <relatedLists>\n    <field>Name</field>\n  </relatedLists>\n</Layout>\n").map
        (fun d => salesforce_encoding
          (removeByTagDoc "\x7bhttp://soap.sforce.com/2006/04/metadata\x7drelatedLists" d)) =
      some "<?xml version=\"1.0\" encoding=\"UTF-8\"?>\n<Layout xmlns=\"http://soap.sforce.com/2006/04/metadata\">\n  </Layout>\n" :=
  rfl

/- ### C4 counterexample -/

set_option maxRecDepth 100000 in
/-- C4 counterexample: `<a></a>` parses to a childless, textless root,
which re-serializes as the self-closed `<a/>` — so serializing after a
zero-match query does not always reproduce the original bytes. -/
theorem c4_counterexample :
    parseDocument "<?xml version=\"1.0\" encoding=\"UTF-8\"?>\n<a></a>" =
      some ⟨"a", [], none, [], none⟩ ∧
    salesforce_encoding ⟨"a", [], none, [], none⟩ ≠
      "<?xml version=\"1.0\" encoding=\"UTF-8\"?>\n<a></a>" :=
  ⟨rfl, by decide⟩

/- ### C7 counterexample -/

set_option maxRecDepth 100000 in
/-- C7 counterexample: attribute values are emitted verbatim, so the
value `a&lt;b` serializes as the characters `a&lt;b`, which re-parse as
`a<b`; re-serializing yields different bytes, refuting the unrestricted
fixpoint `serialize(parse(serialize(D))) = serialize(D)`. -/
theorem c7_counterexample :
    (parseDocument (salesforce_encoding ⟨"r", [("k", "a&lt;b")], some "x", [], none⟩)).map
        salesforce_encoding =
      some (xml_encoding ++ "<r k=\"a<b\">x</r>\n") ∧
    some (xml_encoding ++ "<r k=\"a<b\">x</r>\n") ≠
      some (salesforce_encoding ⟨"r", [("k", "a&lt;b")], some "x", [], none⟩) :=
  ⟨rfl, by decide⟩

/- ### Scanning lemmas for the round trip. -/

theorem spanP_append (p : Char → Bool) (xs : List Char) (ys : List Char)
    (h1 : ∀ x ∈ xs, p x = true)
    (h2 : match ys with | [] => True | y :: _ => p y = false) :
    spanP p (xs ++ ys) = (xs, ys) := by
  induction xs with
  | nil =>
    cases ys with
    | nil => rfl
    | cons y ys' =>
      show spanP p (y :: ys') = ([], y :: ys')
      unfold spanP
      rw [h2]
      rfl
  | cons x xs' ih =>
    show spanP p (x :: (xs' ++ ys)) = (x :: xs', ys)
    unfold spanP
    rw [h1 x (List.mem_cons_self x xs'),
      ih (fun a ha => h1 a (List.mem_cons_of_mem x ha))]
    rfl

theorem matchLit_self_append (ls rest : List Char) :
    matchLit ls (ls ++ rest) = some rest := by
  induction ls with
  | nil => rfl
  | cons l ls' ih =>
    show matchLit (l :: ls') (l :: (ls' ++ rest)) = some rest
    unfold matchLit
    rw [beq_self_eq_true l]
    simpa using ih

theorem matchLit_some_decomp (lit cs r : List Char) (h : matchLit lit cs = some r) :
    cs = lit ++ r := by
  induction lit generalizing cs with
  | nil =>
    cases cs with
    | nil => injection h
    | cons c cs' => injection h
  | cons l ls ih =>
    cases cs with
    | nil => exact absurd h (by simp [matchLit])
    | cons c cs' =>
      unfold matchLit at h
      by_cases hc : (c == l) = true
      · rw [if_pos hc] at h
        have := ih cs' h
        have hcl : c = l := by simpa using hc
        rw [hcl, this]
        rfl
      · rw [if_neg hc] at h
        exact absurd h (by simp)

theorem matchLit_append_of_le (lit xs ys : List Char) (h : lit.length ≤ xs.length) :
    matchLit lit (xs ++ ys) = (matchLit lit xs).map (fun r => r ++ ys) := by
  induction lit generalizing xs with
  | nil => rfl
  | cons l ls ih =>
    cases xs with
    | nil => simp at h
    | cons x xs' =>
      show matchLit (l :: ls) (x :: (xs' ++ ys)) = _
      unfold matchLit
      by_cases hc : (x == l) = true
      · rw [if_pos hc, if_pos hc]
        exact ih xs' (by simpa using h)
      · rw [if_neg hc, if_neg hc]
        rfl

theorem splitAtSub_cons_of_fail (pat : List Char) (c : Char) (cs : List Char)
    (h : matchLit pat (c :: cs) = none) :
    splitAtSub pat (c :: cs) =
      (splitAtSub pat cs).map (fun pr => (c :: pr.1, pr.2)) := by
  show (match matchLit pat (c :: cs) with
    | some rest => some ([], rest)
    | none =>
      match splitAtSub pat cs with
      | some pr => some (c :: pr.1, pr.2)
      | none => none) = _
  rw [h]
  cases splitAtSub pat cs with
  | none => rfl
  | some pr => rfl

theorem splitAtSub_boundary (pat t rest : List Char) (hne : pat ≠ [])
    (h : splitAtSub pat (t ++ pat) = some (t, [])) :
    splitAtSub pat ((t ++ pat) ++ rest) = some (t, rest) := by
  induction t with
  | nil =>
    show splitAtSub pat (pat ++ rest) = some ([], rest)
    cases pat with
    | nil => exact absurd rfl hne
    | cons p ps =>
      show (match matchLit (p :: ps) ((p :: ps) ++ rest) with
        | some r => some ([], r)
        | none => _) = _
      rw [matchLit_self_append]
  | cons c t' ih =>
    have hm : matchLit pat ((c :: t') ++ pat) = none := by
      rcases hmm : matchLit pat ((c :: t') ++ pat) with _ | r
      · rfl
      · exfalso
        have hh : splitAtSub pat ((c :: t') ++ pat) = some ([], r) := by
          show (match matchLit pat ((c :: t') ++ pat) with
            | some rr => some (([] : List Char), rr)
            | none => _) = _
          rw [hmm]
        rw [h] at hh
        injection hh with hh2
        have : (c :: t' : List Char) = [] := congrArg Prod.fst hh2
        exact absurd this (by simp)
    have hstep := splitAtSub_cons_of_fail pat c (t' ++ pat) hm
    have h' : splitAtSub pat (c :: (t' ++ pat)) = some (c :: t', []) := h
    rw [hstep] at h'
    rcases hx : splitAtSub pat (t' ++ pat) with _ | pr
    · rw [hx] at h'
      exact absurd h' (by simp)
    · rw [hx] at h'
      have h2 : (c :: pr.1, pr.2) = ((c :: t' : List Char), ([] : List Char)) := by
        injection h' with h2
      have h3 : pr.1 = t' := by
        have hfst : (c :: pr.1 : List Char) = c :: t' := congrArg Prod.fst h2
        injection hfst
      have h4 : pr.2 = ([] : List Char) := congrArg Prod.snd h2
      have hrec : splitAtSub pat (t' ++ pat) = some (t', []) := by
        rw [hx]
        exact congrArg some (Prod.ext h3 h4)
      have hm2 : matchLit pat (((c :: t') ++ pat) ++ rest) = none := by
        have hlen : pat.length ≤ ((c :: t') ++ pat).length := by
          simp [List.length_append]
          omega
        have hh := matchLit_append_of_le pat ((c :: t') ++ pat) rest hlen
        rw [hm] at hh
        simpa using hh
      have hstep2 := splitAtSub_cons_of_fail pat c ((t' ++ pat) ++ rest)
        (by exact hm2)
      have hgoal : splitAtSub pat (c :: ((t' ++ pat) ++ rest)) =
          (splitAtSub pat ((t' ++ pat) ++ rest)).map (fun pr => (c :: pr.1, pr.2)) := hstep2
      show splitAtSub pat (c :: ((t' ++ pat) ++ rest)) = _
      rw [hgoal, ih hrec]
      rfl

/- ### Character-class facts. -/

theorem nameChar_ne (c x : Char) (h : isNameChar c = true) (hx : isNameChar x = false) :
    ¬c = x := by
  intro he
  rw [he, hx] at h
  exact Bool.false_ne_true h

theorem nameChar_not_ws (c : Char) (h : isNameChar c = true) : isWsChar c = false := by
  rcases hw : isWsChar c with _ | _
  · rfl
  · exfalso
    unfold isWsChar at hw
    rcases Bool.or_eq_true_iff.mp hw with h1 | h1
    · rcases Bool.or_eq_true_iff.mp h1 with h2 | h2
      · rcases Bool.or_eq_true_iff.mp h2 with h3 | h3
        · rw [eq_of_beq h3] at h; exact absurd h (by decide)
        · rw [eq_of_beq h3] at h; exact absurd h (by decide)
      · rw [eq_of_beq h2] at h; exact absurd h (by decide)
    · rw [eq_of_beq h1] at h; exact absurd h (by decide)

theorem escCharL_ne_nil (c : Char) : escCharL c ≠ [] := by
  unfold escCharL
  by_cases h1 : c == '&'
  · rw [if_pos h1]; simp
  · rw [if_neg h1]
    by_cases h2 : c == '<'
    · rw [if_pos h2]; simp
    · rw [if_neg h2]
      by_cases h3 : c == '>'
      · rw [if_pos h3]; simp
      · rw [if_neg h3]
        by_cases h4 : c == aposChar
        · rw [if_pos h4]; simp
        · rw [if_neg h4]
          by_cases h5 : c == '"'
          · rw [if_pos h5]; simp
          · rw [if_neg h5]; simp

theorem escCharL_not_lt (c : Char) : ∀ x ∈ escCharL c, ¬x = '<' := by
  unfold escCharL
  by_cases h1 : c == '&'
  · rw [if_pos h1]; decide
  · rw [if_neg h1]
    by_cases h2 : c == '<'
    · rw [if_pos h2]; decide
    · rw [if_neg h2]
      by_cases h3 : c == '>'
      · rw [if_pos h3]; decide
      · rw [if_neg h3]
        by_cases h4 : c == aposChar
        · rw [if_pos h4]; decide
        · rw [if_neg h4]
          by_cases h5 : c == '"'
          · rw [if_pos h5]; decide
          · rw [if_neg h5]
            intro x hx
            rw [List.mem_singleton] at hx
            subst hx
            intro he
            rw [he] at h2
            exact h2 (by decide)

theorem saxEscape_not_lt (s : String) : ∀ x ∈ (saxEscape s).data, ¬x = '<' := by
  show ∀ x ∈ s.data.flatMap escCharL, ¬x = '<'
  intro x hx
  rcases List.mem_flatMap.mp hx with ⟨c, _, hc2⟩
  exact escCharL_not_lt c x hc2

theorem saxEscape_empty_iff (s : String) : (saxEscape s).data = [] ↔ s.data = [] := by
  show s.data.flatMap escCharL = [] ↔ s.data = []
  cases hd : s.data with
  | nil => simp
  | cons c cs =>
    simp only [List.flatMap_cons]
    constructor
    · intro h
      exact absurd (List.append_eq_nil.mp h).1 (escCharL_ne_nil c)
    · intro h
      exact absurd h (by simp)

/- ### Attribute-list facts. -/

theorem lookupAttr_no_key (attrs : List (String × String)) (k : String)
    (h : ∀ kv ∈ attrs, (kv.1 == k) = false) : lookupAttr attrs k = none := by
  induction attrs with
  | nil => rfl
  | cons kv rest ih =>
    unfold lookupAttr
    rw [h kv (List.mem_cons_self kv rest)]
    exact ih (fun x hx => h x (List.mem_cons_of_mem kv hx))

theorem filter_no_key (attrs : List (String × String)) (k : String)
    (h : ∀ kv ∈ attrs, (kv.1 == k) = false) :
    attrs.filter (fun kv => !(kv.1 == k)) = attrs := by
  induction attrs with
  | nil => rfl
  | cons kv rest ih =>
    rw [List.filter_cons]
    rw [h kv (List.mem_cons_self kv rest)]
    rw [ih (fun x hx => h x (List.mem_cons_of_mem kv hx))]
    rfl

theorem lookupAttr_append_found (attrs : List (String × String)) (k v : String)
    (h : ∀ kv ∈ attrs, (kv.1 == k) = false) :
    lookupAttr (attrs ++ [(k, v)]) k = some v := by
  induction attrs with
  | nil =>
    show lookupAttr [(k, v)] k = some v
    unfold lookupAttr
    rw [beq_self_eq_true]
    rfl
  | cons kv rest ih =>
    have hred : lookupAttr ((kv :: rest) ++ [(k, v)]) k =
        if (kv.1 == k) = true then some kv.2 else lookupAttr (rest ++ [(k, v)]) k := rfl
    rw [hred, h kv (List.mem_cons_self kv rest)]
    rw [if_neg (by decide)]
    exact ih (fun x hx => h x (List.mem_cons_of_mem kv hx))

theorem filter_append_drop (attrs : List (String × String)) (k v : String)
    (h : ∀ kv ∈ attrs, (kv.1 == k) = false) :
    (attrs ++ [(k, v)]).filter (fun kv => !(kv.1 == k)) = attrs := by
  rw [List.filter_append]
  rw [filter_no_key attrs k h]
  have : ([(k, v)] : List (String × String)).filter (fun kv => !(kv.1 == k)) = [] := by
    rw [List.filter_cons]
    rw [beq_self_eq_true]
    rfl
  rw [this]
  exact List.append_nil attrs

theorem attrOk_parts (attrs : List (String × String)) (h : attrs.all attrOk = true) :
    (∀ kv ∈ attrs, validNameStr kv.1 = true) ∧
    (∀ kv ∈ attrs, (kv.1 == "xmlns") = false) ∧
    (∀ kv ∈ attrs, validAttrVal kv.2 = true) := by
  rw [List.all_eq_true] at h
  refine ⟨fun kv hkv => ?_, fun kv hkv => ?_, fun kv hkv => ?_⟩ <;>
    have h2 := h kv hkv <;> unfold attrOk at h2
  · exact (Bool.and_eq_true_iff.mp (Bool.and_eq_true_iff.mp h2).1).1
  · have := (Bool.and_eq_true_iff.mp (Bool.and_eq_true_iff.mp h2).1).2
    rcases hb : (kv.1 == "xmlns") with _ | _
    · rfl
    · rw [hb] at this; exact absurd this (by decide)
  · exact (Bool.and_eq_true_iff.mp h2).2

/- ### String component facts. -/

theorem strMk_data (s : String) : String.mk s.data = s := rfl

theorem validNameStr_parts (s : String) (h : validNameStr s = true) :
    s.data ≠ [] ∧ ∀ c ∈ s.data, isNameChar c = true := by
  unfold validNameStr at h
  rcases Bool.and_eq_true_iff.mp h with ⟨h1, h2⟩
  constructor
  · intro hd
    have : s = "" := String.ext hd
    rw [this] at h1
    exact absurd h1 (by decide)
  · exact fun c hc => (List.all_eq_true.mp h2) c hc

theorem validAttrVal_parts (v : String) (h : validAttrVal v = true) :
    ∀ c ∈ v.data, ¬c = '&' ∧ ¬c = '<' ∧ ¬c = '"' := by
  unfold validAttrVal at h
  intro c hc
  have h2 := (List.all_eq_true.mp h) c hc
  rcases Bool.and_eq_true_iff.mp h2 with ⟨h3, h4⟩
  rcases Bool.and_eq_true_iff.mp h3 with ⟨h5, h6⟩
  refine ⟨?_, ?_, ?_⟩
  · intro he; rw [he] at h5; exact absurd h5 (by decide)
  · intro he; rw [he] at h6; exact absurd h6 (by decide)
  · intro he; rw [he] at h4; exact absurd h4 (by decide)

theorem validTailStr_parts (v : String) (h : validTailStr v = true) :
    ∀ c ∈ v.data, ¬c = '&' ∧ ¬c = '<' := by
  unfold validTailStr at h
  intro c hc
  have h2 := (List.all_eq_true.mp h) c hc
  rcases Bool.and_eq_true_iff.mp h2 with ⟨h3, h4⟩
  constructor
  · intro he; rw [he] at h3; exact absurd h3 (by decide)
  · intro he; rw [he] at h4; exact absurd h4 (by decide)

theorem attrsString_cons_data (k v : String) (as : List (String × String)) :
    (attrsString ((k, v) :: as)).data =
      ' ' :: (k.data ++ '=' :: '"' :: (v.data ++ '"' :: (attrsString as).data)) := by
  have h1 : attrsString ((k, v) :: as) =
      (" " ++ k ++ "=\"" ++ v ++ "\"") ++ attrsString as := rfl
  rw [h1]
  show ((((" " ++ k) ++ "=\"") ++ v) ++ "\"").data ++ (attrsString as).data = _
  show (((((" " : String).data ++ k.data) ++ ("=\"" : String).data) ++ v.data) ++
    ("\"" : String).data) ++ (attrsString as).data = _
  rw [show ((" " : String).data) = [' '] from rfl,
    show (("=\"" : String).data) = ['=', '"'] from rfl,
    show (("\"" : String).data) = ['"'] from rfl]
  simp [List.append_assoc]


/- ### Round-trip lemmas for the parser helpers. -/

theorem strIsEmpty_data (s : String) : s.data.isEmpty = s.isEmpty := by
  rcases hd : s.data with _ | ⟨c, cs⟩
  · have : s = "" := String.ext hd
    rw [this]
    rfl
  · have hne : ¬s = "" := by
      intro he
      rw [he] at hd
      exact absurd hd (by simp [show ("" : String).data = [] from rfl])
    have : s.isEmpty = false := by
      rcases hb : s.isEmpty with _ | _
      · rfl
      · exact absurd ((String.isEmpty_iff s).mp hb) hne
    rw [this]
    rfl

theorem saxEscape_isEmpty (s : String) : (saxEscape s).data.isEmpty = s.isEmpty := by
  rcases hd : s.data with _ | ⟨c, cs⟩
  · have h1 : s = "" := String.ext hd
    rw [h1]
    rfl
  · have h1 : (saxEscape s).data.isEmpty = false := by
      rcases hb : (saxEscape s).data with _ | _
      · exfalso
        have h2 := (saxEscape_empty_iff s).mp hb
        rw [hd] at h2
        exact absurd h2 (by simp)
      · rfl
    rw [h1, ← strIsEmpty_data, hd]
    rfl

theorem parseRun_escape (s : String) (rest : List Char) :
    parseRun ((saxEscape s).data ++ '<' :: rest) = some (normText (some s), '<' :: rest) := by
  have hspan : spanP (fun x => !(x == '<')) ((saxEscape s).data ++ '<' :: rest) =
      ((saxEscape s).data, '<' :: rest) := by
    apply spanP_append
    · intro x hx
      have := saxEscape_not_lt s x hx
      simp [this]
    · show (!('<' == '<')) = false
      decide
  simp only [parseRun, hspan]
  rw [show unescapeRun (saxEscape s).data = some s.data from unescapeRun_escape s.data]
  show some (if (saxEscape s).data.isEmpty then none else some (String.mk s.data),
    '<' :: rest) = _
  rw [strMk_data, saxEscape_isEmpty]
  show _ = some (if s.isEmpty then none else some s, '<' :: rest)
  rfl

theorem parseRun_verbatim (t : List Char) (rest : List Char)
    (h : ∀ c ∈ t, ¬c = '&' ∧ ¬c = '<') :
    parseRun (t ++ '<' :: rest) =
      some (if t.isEmpty then none else some (String.mk t), '<' :: rest) := by
  have hspan : spanP (fun x => !(x == '<')) (t ++ '<' :: rest) = (t, '<' :: rest) := by
    apply spanP_append
    · intro x hx
      simp [(h x hx).2]
    · show (!('<' == '<')) = false
      decide
  simp only [parseRun, hspan]
  rw [unescapeRun_no_amp t (fun c hc => (h c hc).1)]

theorem parseOneAttr_emit (k v : String) (rest : List Char)
    (hk : validNameStr k = true) (hv : validAttrVal v = true) :
    parseOneAttr (k.data ++ '=' :: '"' :: (v.data ++ '"' :: rest)) =
      some (some ((k, v), rest)) := by
  rcases validNameStr_parts k hk with ⟨hk1, hk2⟩
  have hspan : spanP isNameChar (k.data ++ '=' :: '"' :: (v.data ++ '"' :: rest)) =
      (k.data, '=' :: '"' :: (v.data ++ '"' :: rest)) :=
    spanP_append isNameChar k.data ('=' :: '"' :: (v.data ++ '"' :: rest)) hk2
      (by show isNameChar '=' = false; decide)
  have hke : k.data.isEmpty = false := by
    rcases hd : k.data with _ | _
    · exact absurd hd hk1
    · rfl
  have hspanv : spanP (fun x => !(x == '"')) (v.data ++ '"' :: rest) = (v.data, '"' :: rest) := by
    apply spanP_append
    · intro x hx
      simp [(validAttrVal_parts v hv x hx).2.2]
    · show (!('"' == '"')) = false
      decide
  have hcont : v.data.contains '<' = false := by
    rcases hb : v.data.contains '<' with _ | _
    · rfl
    · exfalso
      have hmem : '<' ∈ v.data := List.elem_iff.mp hb
      exact absurd rfl (validAttrVal_parts v hv '<' hmem).2.1
  simp only [parseOneAttr, hspan, hke]
  show (match '=' :: '"' :: (v.data ++ '"' :: rest) with
    | '=' :: '"' :: cs4 =>
      match spanP (fun x => !(x == '"')) cs4 with
      | rv =>
        match rv.2 with
        | '"' :: cs6 =>
          if rv.1.contains '<' then none
          else
            match unescapeRun rv.1 with
            | none => none
            | some w => some (some ((String.mk k.data, String.mk w), cs6))
        | _ => none
    | _ => none) = _
  simp only [hspanv, hcont]
  rw [unescapeRun_no_amp v.data (fun c hc => (validAttrVal_parts v hv c hc).1)]
  rfl

theorem parseAttrs_emit (as : List (String × String)) :
    ∀ (fuel : Nat) (rest : List Char),
    (∀ kv ∈ as, validNameStr kv.1 = true) → (∀ kv ∈ as, validAttrVal kv.2 = true) →
    as.length + 1 ≤ fuel →
    (match rest with | [] => True | c :: _ => isWsChar c = false) →
    parseAttrs fuel ((attrsString as).data ++ rest) = some (as, rest) := by
  induction as with
  | nil =>
    intro fuel rest _ _ hfuel hrest
    have hd : ((attrsString []).data ++ rest) = rest := rfl
    rw [hd]
    cases fuel with
    | zero => omega
    | succ f =>
      cases rest with
      | nil => rfl
      | cons c cs =>
        show (if isWsChar c then _ else some (([] : List (String × String)), c :: cs)) = _
        rw [hrest]
        rfl
  | cons kv as' ih =>
    intro fuel rest hnames hvals hfuel hrest
    cases fuel with
    | zero => omega
    | succ f =>
      rcases kv with ⟨k, v⟩
      rcases validNameStr_parts k (hnames (k, v) (List.mem_cons_self _ _)) with ⟨hk1, hk2⟩
      rw [attrsString_cons_data]
      have hdw : List.dropWhile isWsChar
          ((k.data ++ '=' :: '"' :: (v.data ++ '"' :: (attrsString as').data)) ++ rest) =
          (k.data ++ '=' :: '"' :: (v.data ++ '"' :: (attrsString as').data)) ++ rest := by
        rcases hkd : k.data with _ | ⟨kc, krest⟩
        · exact absurd hkd hk1
        · have hkc : isNameChar kc = true := hk2 kc (by rw [hkd]; exact List.mem_cons_self _ _)
          show List.dropWhile isWsChar
            (kc :: ((krest ++ '=' :: '"' :: (v.data ++ '"' :: (attrsString as').data)) ++ rest)) = _
          rw [List.dropWhile_cons, nameChar_not_ws kc hkc]
          rfl
      have hone : parseOneAttr
          ((k.data ++ '=' :: '"' :: (v.data ++ '"' :: (attrsString as').data)) ++ rest) =
          some (some ((k, v), (attrsString as').data ++ rest)) := by
        have hassoc : (k.data ++ '=' :: '"' :: (v.data ++ '"' :: (attrsString as').data)) ++ rest =
            k.data ++ '=' :: '"' :: (v.data ++ '"' :: ((attrsString as').data ++ rest)) := by
          simp [List.append_assoc]
        rw [hassoc]
        exact parseOneAttr_emit k v ((attrsString as').data ++ rest)
          (hnames (k, v) (List.mem_cons_self _ _)) (hvals (k, v) (List.mem_cons_self _ _))
      show parseAttrs (f + 1)
        (' ' :: ((k.data ++ '=' :: '"' :: (v.data ++ '"' :: (attrsString as').data)) ++ rest)) = _
      simp only [parseAttrs]
      rw [if_pos (show isWsChar ' ' = true by decide)]
      rw [hdw, hone]
      show (parseAttrs f ((attrsString as').data ++ rest)).map
        (fun pr => ((k, v) :: pr.1, pr.2)) = _
      rw [ih f rest (fun x hx => hnames x (List.mem_cons_of_mem _ hx))
        (fun x hx => hvals x (List.mem_cons_of_mem _ hx)) (by simp at hfuel; omega) hrest]
      rfl

theorem parseCloseTag_emit (localL : List Char) (rest : List Char)
    (_h1 : localL ≠ []) (h2 : ∀ c ∈ localL, isNameChar c = true) :
    parseCloseTag localL ('<' :: '/' :: (localL ++ '>' :: rest)) = some rest := by
  unfold parseCloseTag
  have hspan : spanP isNameChar (localL ++ '>' :: rest) = (localL, '>' :: rest) :=
    spanP_append isNameChar localL ('>' :: rest) h2 (by show isNameChar '>' = false; decide)
  simp only [hspan]
  rw [show (localL == localL) = true from beq_self_eq_true localL]
  rfl

theorem buildTag_no_xmlns (u : String) (nameL : List Char) (attrs : List (String × String))
    (h : ∀ kv ∈ attrs, (kv.1 == "xmlns") = false) :
    buildTag u nameL attrs =
      (u,
        (if u.isEmpty then String.mk nameL
          else String.mk (lbraceChar :: (u.data ++ rbraceChar :: nameL))),
        attrs) := by
  unfold buildTag
  rw [lookupAttr_no_key attrs "xmlns" h, filter_no_key attrs "xmlns" h]
  rfl

theorem buildTag_xmlns_last (u : String) (nameL : List Char) (attrs : List (String × String))
    (v : String) (h : ∀ kv ∈ attrs, (kv.1 == "xmlns") = false) :
    buildTag u nameL (attrs ++ [("xmlns", v)]) =
      (v,
        (if v.isEmpty then String.mk nameL
          else String.mk (lbraceChar :: (v.data ++ rbraceChar :: nameL))),
        attrs) := by
  unfold buildTag
  rw [lookupAttr_append_found attrs "xmlns" v h, filter_append_drop attrs "xmlns" v h]
  rfl

/- ### Tag reconstruction. -/

theorem dropWhile_append_all (p : Char → Bool) (xs ys : List Char)
    (h : ∀ x ∈ xs, p x = true) :
    List.dropWhile p (xs ++ ys) = List.dropWhile p ys := by
  induction xs with
  | nil => rfl
  | cons x xs' ih =>
    show List.dropWhile p (x :: (xs' ++ ys)) = _
    rw [List.dropWhile_cons, h x (List.mem_cons_self _ _)]
    exact ih (fun a ha => h a (List.mem_cons_of_mem _ ha))

theorem takeWhile_all (p : Char → Bool) (xs : List Char) (h : ∀ x ∈ xs, p x = true) :
    List.takeWhile p xs = xs := by
  induction xs with
  | nil => rfl
  | cons x xs' ih =>
    rw [List.takeWhile_cons, h x (List.mem_cons_self _ _)]
    rw [ih (fun a ha => h a (List.mem_cons_of_mem _ ha))]
    rfl

theorem nsUriOk_parts (u : String) (h : nsUriOk u = true) :
    ∀ c ∈ u.data, ¬c = rbraceChar ∧ ¬c = '&' ∧ ¬c = '<' ∧ ¬c = '"' := by
  unfold nsUriOk at h
  intro c hc
  have h2 := (List.all_eq_true.mp h) c hc
  rcases Bool.and_eq_true_iff.mp h2 with ⟨h3, h4⟩
  rcases Bool.and_eq_true_iff.mp h3 with ⟨h5, h6⟩
  rcases Bool.and_eq_true_iff.mp h5 with ⟨h7, h8⟩
  refine ⟨?_, ?_, ?_, ?_⟩
  · intro he; rw [he] at h7; exact absurd h7 (by decide)
  · intro he; rw [he] at h8; exact absurd h8 (by decide)
  · intro he; rw [he] at h6; exact absurd h6 (by decide)
  · intro he; rw [he] at h4; exact absurd h4 (by decide)

theorem nameChar_not_rbrace (c : Char) (h : isNameChar c = true) : (c == rbraceChar) = false := by
  rcases hb : (c == rbraceChar) with _ | _
  · rfl
  · rw [eq_of_beq hb] at h
    exact absurd h (by decide)

theorem tagOk_empty (tag : String) (ht : tagOk "" tag = true) :
    validNameStr tag = true ∧ stripNsTag tag = tag := by
  unfold tagOk at ht
  rw [if_pos (by decide)] at ht
  refine ⟨ht, ?_⟩
  rcases validNameStr_parts tag ht with ⟨_, h2⟩
  unfold stripNsTag
  rw [if_neg ?_]
  intro hcont
  have hmem : rbraceChar ∈ tag.data := List.elem_iff.mp hcont
  have := h2 rbraceChar hmem
  exact absurd this (by decide)

theorem tagOk_ns_decomp (u tag : String) (hu : nsUriOk u = true) (hune : u.isEmpty = false)
    (ht : tagOk u tag = true) :
    ∃ loc : List Char, tag.data = lbraceChar :: (u.data ++ rbraceChar :: loc) ∧
      loc ≠ [] ∧ (∀ c ∈ loc, isNameChar c = true) ∧ (stripNsTag tag).data = loc := by
  unfold tagOk at ht
  rw [if_neg (by rw [hune]; exact Bool.false_ne_true)] at ht
  rcases hm : matchLit (lbraceChar :: (u.data ++ [rbraceChar])) tag.data with _ | loc
  · rw [hm] at ht
    exact absurd ht (by decide)
  · rw [hm] at ht
    rcases Bool.and_eq_true_iff.mp ht with ⟨hl1, hl2⟩
    have hdec := matchLit_some_decomp _ _ _ hm
    have hloc1 : loc ≠ [] := by
      intro he
      rw [he] at hl1
      exact absurd hl1 (by decide)
    have hloc2 : ∀ c ∈ loc, isNameChar c = true := List.all_eq_true.mp hl2
    have hdata : tag.data = lbraceChar :: (u.data ++ rbraceChar :: loc) := by
      rw [hdec]
      simp [List.append_assoc]
    refine ⟨loc, hdata, hloc1, hloc2, ?_⟩
    have hmem : rbraceChar ∈ tag.data := by
      rw [hdata]
      simp
    have hcont : tag.data.contains rbraceChar = true := List.elem_iff.mpr hmem
    unfold stripNsTag
    rw [if_pos hcont]
    show (((tag.data.dropWhile (fun c => !(c == rbraceChar))).drop 1).takeWhile
      (fun c => !(c == rbraceChar))) = loc
    rw [hdata]
    rw [show List.dropWhile (fun c => !(c == rbraceChar))
        (lbraceChar :: (u.data ++ rbraceChar :: loc)) =
        List.dropWhile (fun c => !(c == rbraceChar)) (u.data ++ rbraceChar :: loc) from by
      rw [List.dropWhile_cons]
      rw [if_pos (show (!(lbraceChar == rbraceChar)) = true by decide)]]
    rw [dropWhile_append_all _ u.data _ (fun c hc => by
      have h2 := (nsUriOk_parts u hu c hc).1
      have h3 : (c == rbraceChar) = false := by
        rcases hb : (c == rbraceChar) with _ | _
        · rfl
        · exact absurd (eq_of_beq hb) h2
      simp [h3])]
    rw [List.dropWhile_cons]
    rw [if_neg (show ¬(!(rbraceChar == rbraceChar)) = true by decide)]
    show (loc.drop 0).takeWhile (fun c => !(c == rbraceChar)) = loc
    rw [List.drop_zero]
    exact takeWhile_all _ loc (fun c hc => by simp [nameChar_not_rbrace c (hloc2 c hc)])

/- ### Serializer output decomposition. -/

theorem serializeNode_element_data (tag : String) (attrs : List (String × String))
    (text : Option String) (children : List Node) (tail : Option String) :
    (serializeNode (.element tag attrs text children tail)).data =
      '<' :: ((stripNsTag tag).data ++ ((attrsString attrs).data ++
        (contentEmit (stripNsTag tag) text children ++
          tailEmitN (.element tag attrs text children tail)))) := by
  rw [serializeNode_element]
  unfold contentEmit tailEmitN
  by_cases hc : has_content (.element tag attrs text children tail) = true
  · rw [hc]
    have hc2 : (truthyOptStr text || !children.isEmpty) = true := hc
    rw [hc2]
    show ("<" ++ stripNsTag tag ++ attrsString attrs ++ ">" ++ textEmit text ++
      serializeList children ++ "</" ++ stripNsTag tag ++ ">" ++ pyOrStr tail "\n").data = _
    show ((("<" : String).data ++ (stripNsTag tag).data ++ (attrsString attrs).data ++
      (">" : String).data ++ (textEmit text).data ++ (serializeList children).data ++
      ("</" : String).data ++ (stripNsTag tag).data ++ (">" : String).data) ++
      (pyOrStr tail "\n").data) = _
    rw [show (("<" : String).data) = ['<'] from rfl,
      show ((">" : String).data) = ['>'] from rfl,
      show (("</" : String).data) = ['<', '/'] from rfl]
    simp [List.append_assoc, hc]
  · have hcf : has_content (.element tag attrs text children tail) = false :=
      Bool.eq_false_iff.mpr hc
    rw [hcf]
    have hc2 : (truthyOptStr text || !children.isEmpty) = false := hcf
    rw [hc2]
    show ("<" ++ stripNsTag tag ++ attrsString attrs ++ "/>").data = _
    show ((("<" : String).data ++ (stripNsTag tag).data ++ (attrsString attrs).data) ++
      ("/>" : String).data) = _
    rw [show (("<" : String).data) = ['<'] from rfl,
      show (("/>" : String).data) = ['/', '>'] from rfl]
    simp [List.append_assoc, hcf]

theorem serializeNode_comment_data (text : String) (tail : Option String) :
    (serializeNode (.comment text tail)).data =
      '<' :: '!' :: '-' :: '-' :: (text.data ++ '-' :: '-' :: '>' ::
        tailEmitN (.comment text tail)) := by
  rw [serializeNode_comment]
  unfold commentStr tailEmitN
  show ((("<!--" : String).data ++ text.data ++ ("-->" : String).data) ++
    (pyOrStr tail "").data) = _
  rw [show (("<!--" : String).data) = ['<', '!', '-', '-'] from rfl,
    show (("-->" : String).data) = ['-', '-', '>'] from rfl]
  simp [List.append_assoc]

theorem serializeNode_head (n : Node) : ∃ r, (serializeNode n).data = '<' :: r := by
  cases n with
  | element tag attrs text children tail =>
    exact ⟨_, serializeNode_element_data tag attrs text children tail⟩
  | comment text tail =>
    exact ⟨_, serializeNode_comment_data text tail⟩

theorem serListPlus_head (ns : List Node) (X : List Char) :
    ∃ r, (serializeList ns).data ++ '<' :: X = '<' :: r := by
  cases ns with
  | nil => exact ⟨X, rfl⟩
  | cons n rest =>
    rcases serializeNode_head n with ⟨r, hr⟩
    refine ⟨r ++ ((serializeList rest).data ++ '<' :: X), ?_⟩
    rw [serializeList_cons]
    show ((serializeNode n).data ++ (serializeList rest).data) ++ '<' :: X = _
    rw [hr]
    simp [List.append_assoc]

/- ### Fuel bounds. -/

theorem attrsString_len (as : List (String × String)) :
    as.length ≤ (attrsString as).data.length := by
  induction as with
  | nil => simp
  | cons kv rest ih =>
    rcases kv with ⟨k, v⟩
    rw [attrsString_cons_data]
    simp only [List.length_cons, List.length_append]
    omega

mutual

theorem eSize_le (n : Node) : eSize n + 2 ≤ 3 * (serializeNode n).data.length := by
  cases n with
  | element tag attrs text children tail =>
    have h1 := nSize_le children
    have h2 := attrsString_len attrs
    rw [serializeNode_element_data]
    show eSize (.element tag attrs text children tail) + 2 ≤ _
    unfold eSize
    unfold contentEmit
    by_cases hc : (truthyOptStr text || !children.isEmpty) = true
    · rw [hc]
      simp only [List.length_cons, List.length_append, if_true]
      omega
    · rw [Bool.eq_false_iff.mpr hc]
      have hch : children = [] := by
        rcases Bool.or_eq_false_iff.mp (Bool.eq_false_iff.mpr hc) with ⟨_, hh⟩
        cases children with
        | nil => rfl
        | cons a l => simp at hh
      subst hch
      simp only [Bool.false_eq_true, if_false, List.length_cons, List.length_nil,
        List.length_append]
      have h0 : nSize ([] : List Node) = 1 := rfl
      omega
  | comment text tail =>
    rw [serializeNode_comment_data]
    show eSize (.comment text tail) + 2 ≤ _
    unfold eSize
    simp only [List.length_cons, List.length_append]
    omega

theorem nSize_le (ns : List Node) : nSize ns ≤ 3 * (serializeList ns).data.length + 1 := by
  cases ns with
  | nil =>
    show nSize [] ≤ _
    unfold nSize
    omega
  | cons n rest =>
    have h1 := eSize_le n
    have h2 := nSize_le rest
    show nSize (n :: rest) ≤ _
    unfold nSize
    rw [serializeList_cons]
    rw [show ((serializeNode n ++ serializeList rest).data) =
      (serializeNode n).data ++ (serializeList rest).data from rfl]
    rw [List.length_append]
    omega

end

/- ### Small reduction helpers for the round trip. -/

theorem optBind_some {α β : Type} (a : α) (f : α → Option β) : (some a).bind f = f a := rfl

theorem optMap_some {α β : Type} (a : α) (f : α → β) : (some a).map f = some (f a) := rfl

theorem asNodes_nodes (ns : List Node) (r : List Char) :
    asNodes (some (.nodes ns r)) = some (ns, r) := rfl

theorem asEl_el (n : Node) (r : List Char) : asEl (some (.el n r)) = some (n, r) := rfl

theorem eSize_pos (n : Node) : 1 ≤ eSize n := by
  cases n with
  | element tag attrs text children tail =>
    show 1 ≤ attrs.length + nSize children + 3
    omega
  | comment text tail => exact Nat.le_refl 1

theorem nSize_pos (ns : List Node) : 1 ≤ nSize ns := by
  cases ns with
  | nil => exact Nat.le_refl 1
  | cons n rest =>
    show 1 ≤ eSize n + nSize rest + 1
    omega

theorem truthy_false_normText (text : Option String) (h : truthyOptStr text = false) :
    normText text = none := by
  cases text with
  | none => rfl
  | some s =>
    have h2 : s.isEmpty = true := by
      rcases hb : s.isEmpty with _ | _
      · exfalso
        have h3 : truthyOptStr (some s) = true := by
          show (!s.isEmpty) = true
          rw [hb]
          rfl
        rw [h] at h3
        exact absurd h3 (by decide)
      · rfl
    show (if s.isEmpty then none else some s) = none
    rw [if_pos h2]

/-- The local name the serializer emits, with the rebuild equation the
parser uses to reconstruct the original tag. -/
theorem tagOk_main (u tag : String) (hu : nsUriOk u = true) (ht : tagOk u tag = true) :
    (stripNsTag tag).data ≠ [] ∧ (∀ c ∈ (stripNsTag tag).data, isNameChar c = true) ∧
      (if u.isEmpty then String.mk (stripNsTag tag).data
        else String.mk (lbraceChar :: (u.data ++ rbraceChar :: (stripNsTag tag).data))) =
        tag := by
  by_cases hue : u.isEmpty = true
  · have hu0 : u = "" := (String.isEmpty_iff u).mp hue
    subst hu0
    rcases tagOk_empty tag ht with ⟨hv, hstrip⟩
    rcases validNameStr_parts tag hv with ⟨h1, h2⟩
    rw [hstrip]
    refine ⟨h1, h2, ?_⟩
    rw [if_pos (by decide)]
  · have hue2 : u.isEmpty = false := Bool.eq_false_iff.mpr hue
    rcases tagOk_ns_decomp u tag hu hue2 ht with ⟨loc, hdata, hne, hname, hstrip⟩
    rw [hstrip]
    refine ⟨hne, hname, ?_⟩
    rw [if_neg hue]
    exact String.ext (by rw [hdata])

theorem contentEmit_head_not_ws (localTag : String) (text : Option String)
    (children : List Node) (X : List Char) :
    match contentEmit localTag text children ++ X with
    | [] => True
    | c :: _ => isWsChar c = false := by
  unfold contentEmit
  by_cases hc : (truthyOptStr text || !children.isEmpty) = true
  · rw [hc]
    show isWsChar '>' = false
    decide
  · rw [Bool.eq_false_iff.mpr hc]
    show isWsChar '/' = false
    decide

theorem attrsContent_head_not_name (as : List (String × String)) (localTag : String)
    (text : Option String) (children : List Node) (X : List Char) :
    match (attrsString as).data ++ (contentEmit localTag text children ++ X) with
    | [] => True
    | c :: _ => isNameChar c = false := by
  cases as with
  | nil =>
    show match contentEmit localTag text children ++ X with
      | [] => True
      | c :: _ => isNameChar c = false
    unfold contentEmit
    by_cases hc : (truthyOptStr text || !children.isEmpty) = true
    · rw [hc]
      show isNameChar '>' = false
      decide
    · rw [Bool.eq_false_iff.mpr hc]
      show isNameChar '/' = false
      decide
  | cons kv rest =>
    rcases kv with ⟨k, v⟩
    rw [attrsString_cons_data]
    show isNameChar ' ' = false
    decide

theorem commentOk_prop (t : String) (h : commentOk t = true) :
    splitAtSub ['-', '-', '>'] (t.data ++ ['-', '-', '>']) = some (t.data, []) :=
  of_decide_eq_true h

theorem canonTail_comment_eq (text : String) (tail : Option String) :
    (if (pyOrStr tail "").data.isEmpty then none
      else some (String.mk (pyOrStr tail "").data)) = canonTail (.comment text tail) := by
  cases tail with
  | none => rfl
  | some t =>
    show (if (if t.isEmpty then "" else t).data.isEmpty then none
      else some (String.mk (if t.isEmpty then "" else t).data)) =
      (if t.isEmpty then none else some t)
    by_cases hb : t.isEmpty
    · simp [hb]
    · simp [hb, strIsEmpty_data]

theorem canonTail_element_eq (tag : String) (attrs : List (String × String))
    (text : Option String) (children : List Node) (tail : Option String) :
    (if (tailEmitN (.element tag attrs text children tail)).isEmpty then none
      else some (String.mk (tailEmitN (.element tag attrs text children tail)))) =
      canonTail (.element tag attrs text children tail) := by
  unfold canonTail tailEmitN
  by_cases hc : has_content (.element tag attrs text children tail) = true
  · have hne : (pyOrStr tail "\n").data.isEmpty = false := by
      have h0 := pyOrStr_length_pos tail
      rcases hb : (pyOrStr tail "\n").data with _ | _
      · exfalso
        have h2 : (pyOrStr tail "\n").length = 0 := by
          show (pyOrStr tail "\n").data.length = 0
          rw [hb]
          rfl
        omega
      · rfl
    simp [hc, hne]
  · simp [Bool.eq_false_iff.mpr hc]

theorem tailEmitN_chars (u : String) (n : Node) (h : wfNode u n = true) :
    ∀ c ∈ tailEmitN n, ¬c = '&' ∧ ¬c = '<' := by
  cases n with
  | element tag attrs text children tail =>
    have h2 : validTailOpt tail = true := by
      have h3 : wfNode u (.element tag attrs text children tail) =
          (tagOk u tag && attrs.all attrOk && wfList u children && validTailOpt tail) := rfl
      rw [h3] at h
      exact (Bool.and_eq_true_iff.mp h).2
    unfold tailEmitN
    by_cases hc : has_content (.element tag attrs text children tail) = true
    · simp only [hc, if_true]
      cases tail with
      | none =>
        show ∀ c ∈ ("\n" : String).data, _
        decide
      | some t =>
        show ∀ c ∈ (if t.isEmpty then "\n" else t).data, _
        by_cases hb : t.isEmpty
        · rw [if_pos hb]
          decide
        · rw [if_neg hb]
          exact validTailStr_parts t h2
    · simp [Bool.eq_false_iff.mpr hc]
  | comment text tail =>
    have h2 : validTailOpt tail = true := by
      have h3 : wfNode u (.comment text tail) = (commentOk text && validTailOpt tail) := rfl
      rw [h3] at h
      exact (Bool.and_eq_true_iff.mp h).2
    unfold tailEmitN
    cases tail with
    | none =>
      intro c hc2
      exact absurd hc2 (by simp [pyOrStr, show (("" : String)).data = [] from rfl])
    | some t =>
      show ∀ c ∈ (if t.isEmpty then "" else t).data, _
      by_cases hb : t.isEmpty
      · rw [if_pos hb]
        intro c hc2
        exact absurd hc2 (by simp [show (("" : String)).data = [] from rfl])
      · rw [if_neg hb]
        exact validTailStr_parts t h2

/- ### One-step unfoldings of `parseF`. -/

theorem parseF_el_eq (f : Nat) (u : String) (cs1 : List Char) :
    parseF (f + 1) (.el u) ('<' :: cs1) =
      (if (spanP isNameChar cs1).1.isEmpty then none
      else
        (parseAttrs f (spanP isNameChar cs1).2).bind (fun ac =>
          parseF f (.content (buildTag u (spanP isNameChar cs1).1 ac.1).1
            (spanP isNameChar cs1).1
            (buildTag u (spanP isNameChar cs1).1 ac.1).2.1
            (buildTag u (spanP isNameChar cs1).1 ac.1).2.2) ac.2)) := rfl

theorem parseF_content_selfclose (f : Nat) (u : String) (nameL : List Char) (tag : String)
    (attrs : List (String × String)) (rest : List Char) :
    parseF (f + 1) (.content u nameL tag attrs) ('/' :: '>' :: rest) =
      some (.el (.element tag attrs none [] none) rest) := rfl

theorem parseF_content_gt (f : Nat) (u : String) (nameL : List Char) (tag : String)
    (attrs : List (String × String)) (rest : List Char) :
    parseF (f + 1) (.content u nameL tag attrs) ('>' :: rest) =
      (parseRun rest).bind (fun pr =>
        (asNodes (parseF f (.nodes u) pr.2)).bind (fun ch =>
          (parseCloseTag nameL ch.2).map (fun rest2 =>
            .el (.element tag attrs pr.1 ch.1 none) rest2))) := rfl

theorem parseF_nodes_close (f : Nat) (u : String) (rest : List Char) :
    parseF (f + 1) (.nodes u) ('<' :: '/' :: rest) =
      some (.nodes [] ('<' :: '/' :: rest)) := rfl

theorem parseF_nodes_comment (f : Nat) (u : String) (cs1 : List Char) :
    parseF (f + 1) (.nodes u) ('<' :: '!' :: '-' :: '-' :: cs1) =
      (splitAtSub ['-', '-', '>'] cs1).bind (fun pr =>
        (parseRun pr.2).bind (fun tl =>
          (asNodes (parseF f (.nodes u) tl.2)).map (fun sib =>
            .nodes (Node.comment (String.mk pr.1) tl.1 :: sib.1) sib.2))) := rfl

set_option maxHeartbeats 2000000 in
theorem parseF_nodes_el (f : Nat) (u : String) (c0 : Char) (csX : List Char)
    (h1 : ¬c0 = '/') (h2 : ¬c0 = '!') :
    parseF (f + 1) (.nodes u) ('<' :: c0 :: csX) =
      (asEl (parseF f (.el u) ('<' :: c0 :: csX))).bind (fun nr =>
        (parseRun nr.2).bind (fun tl =>
          (asNodes (parseF f (.nodes u) tl.2)).map (fun sib =>
            .nodes (setTail nr.1 tl.1 :: sib.1) sib.2))) := by
  rw [parseF.eq_def]
  split
  all_goals simp_all

theorem parseF_nodes_el2 (f : Nat) (u : String) (cs0 : List Char) (c0 : Char)
    (csX : List Char) (hs : cs0 = '<' :: c0 :: csX) (h1 : ¬c0 = '/') (h2 : ¬c0 = '!') :
    parseF (f + 1) (.nodes u) cs0 =
      (asEl (parseF f (.el u) cs0)).bind (fun nr =>
        (parseRun nr.2).bind (fun tl =>
          (asNodes (parseF f (.nodes u) tl.2)).map (fun sib =>
            .nodes (setTail nr.1 tl.1 :: sib.1) sib.2))) := by
  subst hs
  exact parseF_nodes_el f u c0 csX h1 h2

theorem parseF_roundtrip (fuel : Nat) :
    (∀ (u tag : String) (attrs : List (String × String)) (text : Option String)
      (children : List Node) (tail : Option String) (cs : List Char),
      nsUriOk u = true →
      wfNode u (.element tag attrs text children tail) = true →
      eSize (.element tag attrs text children tail) ≤ fuel →
      parseF fuel (.el u) ((serializeNode (.element tag attrs text children tail)).data ++ cs) =
        some (.el (canonNode (.element tag attrs text children tail))
          (tailEmitN (.element tag attrs text children tail) ++ cs))) ∧
    (∀ (u localTag : String) (tagArg : String)
      (attrsArg : List (String × String)) (text : Option String) (children : List Node)
      (cs : List Char),
      nsUriOk u = true → wfList u children = true →
      localTag.data ≠ [] → (∀ c ∈ localTag.data, isNameChar c = true) →
      nSize children + 1 ≤ fuel →
      parseF fuel (.content u localTag.data tagArg attrsArg)
          (contentEmit localTag text children ++ cs) =
        some (.el (.element tagArg attrsArg (normText text) (canonList children) none) cs)) ∧
    (∀ (u : String) (ns : List Node) (cs : List Char),
      nsUriOk u = true → wfList u ns = true → nSize ns ≤ fuel →
      parseF fuel (.nodes u) ((serializeList ns).data ++ '<' :: '/' :: cs) =
        some (.nodes (canonList ns) ('<' :: '/' :: cs))) := by
  induction fuel with
  | zero =>
    refine ⟨?_, ?_, ?_⟩
    · intro u tag attrs text children tail cs _ _ hsize
      exact absurd hsize (by have := eSize_pos (.element tag attrs text children tail); omega)
    · intro u localTag tagArg attrsArg text children cs _ _ _ _ hsize
      exact absurd hsize (by omega)
    · intro u ns cs _ _ hsize
      exact absurd hsize (by have := nSize_pos ns; omega)
  | succ f ih =>
    obtain ⟨ihEl, ihContent, ihNodes⟩ := ih
    refine ⟨?_, ?_, ?_⟩
    · -- element
      intro u tag attrs text children tail cs hu hwf hsize
      have hwf2 : (tagOk u tag && attrs.all attrOk && wfList u children &&
        validTailOpt tail) = true := hwf
      rcases Bool.and_eq_true_iff.mp hwf2 with ⟨hwf3, htail⟩
      rcases Bool.and_eq_true_iff.mp hwf3 with ⟨hwf4, hch⟩
      rcases Bool.and_eq_true_iff.mp hwf4 with ⟨htag, hattrs⟩
      rcases attrOk_parts attrs hattrs with ⟨hnames, hxmlns, hvals⟩
      rcases tagOk_main u tag hu htag with ⟨hLne, hLname, hrebuild⟩
      have hsize2 : attrs.length + nSize children + 3 ≤ f + 1 := hsize
      have hnpos := nSize_pos children
      rw [serializeNode_element_data, List.cons_append, parseF_el_eq]
      simp only [List.append_assoc]
      have hspan : spanP isNameChar ((stripNsTag tag).data ++
          ((attrsString attrs).data ++ (contentEmit (stripNsTag tag) text children ++
            (tailEmitN (.element tag attrs text children tail) ++ cs)))) =
          ((stripNsTag tag).data,
            (attrsString attrs).data ++ (contentEmit (stripNsTag tag) text children ++
              (tailEmitN (.element tag attrs text children tail) ++ cs))) := by
        apply spanP_append _ _ _ hLname
        exact attrsContent_head_not_name attrs (stripNsTag tag) text children _
      simp only [hspan]
      have hLe : (stripNsTag tag).data.isEmpty = false := by
        rcases hd : (stripNsTag tag).data with _ | _
        · exact absurd hd hLne
        · rfl
      rw [hLe]
      simp only [Bool.false_eq_true, if_false]
      have hpa : parseAttrs f ((attrsString attrs).data ++
          (contentEmit (stripNsTag tag) text children ++
            (tailEmitN (.element tag attrs text children tail) ++ cs))) =
          some (attrs, contentEmit (stripNsTag tag) text children ++
            (tailEmitN (.element tag attrs text children tail) ++ cs)) :=
        parseAttrs_emit attrs f _ hnames hvals (by omega)
          (contentEmit_head_not_ws (stripNsTag tag) text children _)
      simp only [hpa, optBind_some]
      simp only [buildTag_no_xmlns u (stripNsTag tag).data attrs hxmlns]
      rw [hrebuild]
      exact ihContent u (stripNsTag tag) tag attrs text children
        (tailEmitN (.element tag attrs text children tail) ++ cs) hu hch hLne hLname
        (by omega)
    · -- content
      intro u localTag tagArg attrsArg text children cs hu hch hLne hLname hsize
      by_cases hc : (truthyOptStr text || !children.isEmpty) = true
      · rw [show contentEmit localTag text children =
          '>' :: ((textEmit text).data ++ ((serializeList children).data ++
            '<' :: '/' :: (localTag.data ++ ['>']))) from by
          unfold contentEmit; rw [hc]; rfl]
        rw [List.cons_append, parseF_content_gt]
        simp only [List.append_assoc, List.cons_append, List.nil_append]
        rcases text with _ | s
        · rw [show (textEmit none) = saxEscape "" from rfl]
          rcases serListPlus_head children ('/' :: (localTag.data ++ '>' :: cs)) with ⟨r, hr⟩
          rw [hr, parseRun_escape]
          simp only [optBind_some]
          rw [← hr]
          rw [ihNodes u children (localTag.data ++ '>' :: cs) hu hch (by omega)]
          simp only [asNodes_nodes, optBind_some]
          rw [parseCloseTag_emit localTag.data cs hLne hLname]
          simp only [optMap_some]
          rw [show normText (some "") = normText none from by decide]
        · rw [show (textEmit (some s)) = saxEscape s from rfl]
          rcases serListPlus_head children ('/' :: (localTag.data ++ '>' :: cs)) with ⟨r, hr⟩
          rw [hr, parseRun_escape]
          simp only [optBind_some]
          rw [← hr]
          rw [ihNodes u children (localTag.data ++ '>' :: cs) hu hch (by omega)]
          simp only [asNodes_nodes, optBind_some]
          rw [parseCloseTag_emit localTag.data cs hLne hLname]
          simp only [optMap_some]
      · have hcf := Bool.eq_false_iff.mpr hc
        rcases Bool.or_eq_false_iff.mp hcf with ⟨htx, hchld⟩
        have hchn : children = [] := by
          cases children with
          | nil => rfl
          | cons a l => simp at hchld
        subst hchn
        rw [show contentEmit localTag text [] = ['/', '>'] from by
          unfold contentEmit; rw [hcf]; rfl]
        rw [List.cons_append, List.cons_append, List.nil_append]
        rw [parseF_content_selfclose]
        rw [truthy_false_normText text htx]
        rfl
    · -- nodes
      intro u ns cs hu hwf hsize
      cases ns with
      | nil =>
        rw [serializeList_nil, show ("" : String).data = ([] : List Char) from rfl,
          List.nil_append, parseF_nodes_close]
        rfl
      | cons n rest =>
        have hwf2 : (wfNode u n && wfList u rest) = true := hwf
        rcases Bool.and_eq_true_iff.mp hwf2 with ⟨hn, hrest⟩
        have hsize2 : eSize n + nSize rest + 1 ≤ f + 1 := hsize
        have hepos := eSize_pos n
        have hnpos := nSize_pos rest
        rw [serializeList_cons,
          show ((serializeNode n ++ serializeList rest).data) =
            (serializeNode n).data ++ (serializeList rest).data from rfl,
          List.append_assoc]
        cases n with
        | comment text tail =>
          have hn2 : (commentOk text && validTailOpt tail) = true := hn
          have hcOk : commentOk text = true := (Bool.and_eq_true_iff.mp hn2).1
          rw [serializeNode_comment_data]
          simp only [List.append_assoc, List.cons_append]
          rw [parseF_nodes_comment]
          have hsplit : splitAtSub ['-', '-', '>']
              (text.data ++ ('-' :: '-' :: '>' :: (tailEmitN (.comment text tail) ++
                ((serializeList rest).data ++ '<' :: '/' :: cs)))) =
              some (text.data, tailEmitN (.comment text tail) ++
                ((serializeList rest).data ++ '<' :: '/' :: cs)) := by
            have hb := splitAtSub_boundary ['-', '-', '>'] text.data
              (tailEmitN (.comment text tail) ++ ((serializeList rest).data ++ '<' :: '/' :: cs))
              (by simp) (commentOk_prop text hcOk)
            have hshape : (text.data ++ ['-', '-', '>']) ++
                (tailEmitN (.comment text tail) ++
                  ((serializeList rest).data ++ '<' :: '/' :: cs)) =
                text.data ++ ('-' :: '-' :: '>' :: (tailEmitN (.comment text tail) ++
                  ((serializeList rest).data ++ '<' :: '/' :: cs))) := by
              simp [List.append_assoc]
            rw [hshape] at hb
            exact hb
          rw [hsplit]
          simp only [optBind_some]
          rcases serListPlus_head rest ('/' :: cs) with ⟨r2, hr2⟩
          rw [hr2]
          rw [parseRun_verbatim (tailEmitN (.comment text tail)) r2
            (tailEmitN_chars u (.comment text tail) hn)]
          simp only [optBind_some]
          rw [← hr2]
          rw [ihNodes u rest cs hu hrest (by omega)]
          simp only [asNodes_nodes, optMap_some]
          rw [show (if (tailEmitN (.comment text tail)).isEmpty then none
            else some (String.mk (tailEmitN (.comment text tail)))) =
            canonTail (.comment text tail) from canonTail_comment_eq text tail]
          rfl
        | element tag2 attrs2 text2 children2 tail2 =>
          have hn2 : (tagOk u tag2 && attrs2.all attrOk && wfList u children2 &&
            validTailOpt tail2) = true := hn
          have htag2 : tagOk u tag2 = true :=
            (Bool.and_eq_true_iff.mp (Bool.and_eq_true_iff.mp
              (Bool.and_eq_true_iff.mp hn2).1).1).1
          rcases tagOk_main u tag2 hu htag2 with ⟨hL2ne, hL2name, _⟩
          rcases hL2 : (stripNsTag tag2).data with _ | ⟨c0, L2⟩
          · exact absurd hL2 hL2ne
          · have hc0 : isNameChar c0 = true := hL2name c0 (by rw [hL2]; exact List.mem_cons_self _ _)
            have hne1 : ¬c0 = '/' := nameChar_ne c0 '/' hc0 (by decide)
            have hne2 : ¬c0 = '!' := nameChar_ne c0 '!' hc0 (by decide)
            have hshape : (serializeNode (.element tag2 attrs2 text2 children2 tail2)).data ++
                ((serializeList rest).data ++ '<' :: '/' :: cs) =
                '<' :: c0 :: ((L2 ++ ((attrsString attrs2).data ++
                  (contentEmit (stripNsTag tag2) text2 children2 ++
                    tailEmitN (.element tag2 attrs2 text2 children2 tail2)))) ++
                  ((serializeList rest).data ++ '<' :: '/' :: cs)) := by
              rw [serializeNode_element_data, hL2]
              simp [List.append_assoc]
            rw [parseF_nodes_el2 f u _ c0 _ hshape hne1 hne2]
            rw [ihEl u tag2 attrs2 text2 children2 tail2
              ((serializeList rest).data ++ '<' :: '/' :: cs) hu hn (by omega)]
            simp only [asEl_el, optBind_some]
            rcases serListPlus_head rest ('/' :: cs) with ⟨r2, hr2⟩
            rw [hr2]
            rw [parseRun_verbatim (tailEmitN (.element tag2 attrs2 text2 children2 tail2)) r2
              (tailEmitN_chars u (.element tag2 attrs2 text2 children2 tail2) hn)]
            simp only [optBind_some]
            rw [← hr2]
            rw [ihNodes u rest cs hu hrest (by omega)]
            simp only [asNodes_nodes, optMap_some]
            rw [show (if (tailEmitN (.element tag2 attrs2 text2 children2 tail2)).isEmpty
              then none
              else some (String.mk (tailEmitN (.element tag2 attrs2 text2 children2 tail2)))) =
              canonTail (.element tag2 attrs2 text2 children2 tail2) from
              canonTail_element_eq tag2 attrs2 text2 children2 tail2]
            rfl

theorem rootTailOk_valid (t : Option String) (h : rootTailOk t = true) :
    validTailOpt t = true := by
  cases t with
  | none => rfl
  | some s =>
    have h2 : (s.isEmpty || s == "\n") = true := h
    rcases Bool.or_eq_true_iff.mp h2 with h3 | h3
    · have : s = "" := (String.isEmpty_iff s).mp h3
      subst this
      decide
    · have : s = "\n" := eq_of_beq h3
      subst this
      decide

theorem rootTail_pyOr (t : Option String) (h : rootTailOk t = true) :
    pyOrStr t "\n" = "\n" := by
  cases t with
  | none => rfl
  | some s =>
    have h2 : (s.isEmpty || s == "\n") = true := h
    rcases Bool.or_eq_true_iff.mp h2 with h3 | h3
    · show (if s.isEmpty then "\n" else s) = "\n"
      rw [h3]
      rfl
    · have : s = "\n" := eq_of_beq h3
      subst this
      rfl

theorem skip_root_tail (d : XDoc) (h : rootTailOk d.rootTail = true) :
    (skipWsL (tailEmitN (salesforce_encoding_tree d).rootNode)).isEmpty = true := by
  have hpy := rootTail_pyOr d.rootTail h
  unfold salesforce_encoding_tree
  by_cases hns : pyIn SF_NS d.rootTag = true
  · rw [if_pos hns]
    show (skipWsL (if has_content (.element d.rootTag (setAttrib d.rootAttrs "xmlns" SF_NS)
      d.rootText d.rootChildren d.rootTail) then (pyOrStr d.rootTail "\n").data
      else [])).isEmpty = true
    by_cases hc : has_content (.element d.rootTag (setAttrib d.rootAttrs "xmlns" SF_NS)
      d.rootText d.rootChildren d.rootTail) = true
    · rw [if_pos hc, hpy]
      decide
    · rw [if_neg hc]
      rfl
  · rw [if_neg hns]
    show (skipWsL (if has_content (.element d.rootTag d.rootAttrs
      d.rootText d.rootChildren d.rootTail) then (pyOrStr d.rootTail "\n").data
      else [])).isEmpty = true
    by_cases hc : has_content (.element d.rootTag d.rootAttrs
      d.rootText d.rootChildren d.rootTail) = true
    · rw [if_pos hc, hpy]
      decide
    · rw [if_neg hc]
      rfl

theorem parseF_root (fuel : Nat) (d : XDoc) (h : wfDoc d = true)
    (hfuel : eSize (salesforce_encoding_tree d).rootNode ≤ fuel) (cs : List Char) :
    parseF fuel (.el "") ((serializeNode (salesforce_encoding_tree d).rootNode).data ++ cs) =
      some (.el (.element d.rootTag d.rootAttrs (normText d.rootText)
        (canonList d.rootChildren) none)
        (tailEmitN (salesforce_encoding_tree d).rootNode ++ cs)) := by
  have hw : (tagOk (docNs d) d.rootTag && d.rootAttrs.all attrOk &&
      wfList (docNs d) d.rootChildren && rootTailOk d.rootTail) = true := h
  rcases Bool.and_eq_true_iff.mp hw with ⟨hw1, hrt⟩
  rcases Bool.and_eq_true_iff.mp hw1 with ⟨hw2, hch⟩
  rcases Bool.and_eq_true_iff.mp hw2 with ⟨htag, hattrs⟩
  by_cases hns : pyIn SF_NS d.rootTag = true
  · have hdn : docNs d = SF_NS := by
      unfold docNs
      rw [if_pos hns]
    rw [hdn] at htag hch
    have htree : salesforce_encoding_tree d =
        ⟨d.rootTag, setAttrib d.rootAttrs "xmlns" SF_NS, d.rootText, d.rootChildren,
          d.rootTail⟩ := by
      unfold salesforce_encoding_tree
      rw [if_pos hns]
    rcases attrOk_parts d.rootAttrs hattrs with ⟨hnames, hxm, hvals⟩
    have hno : d.rootAttrs.any (fun kv => kv.1 == "xmlns") = false := by
      rcases hb : d.rootAttrs.any (fun kv => kv.1 == "xmlns") with _ | _
      · rfl
      · rcases List.any_eq_true.mp hb with ⟨x, hx, hk⟩
        rw [hxm x hx] at hk
        exact absurd hk (by decide)
    have hset : setAttrib d.rootAttrs "xmlns" SF_NS =
        d.rootAttrs ++ [("xmlns", SF_NS)] := setAttrib_of_not_has _ _ _ hno
    rw [htree] at hfuel ⊢
    have hroot : (⟨d.rootTag, setAttrib d.rootAttrs "xmlns" SF_NS, d.rootText,
        d.rootChildren, d.rootTail⟩ : XDoc).rootNode =
        .element d.rootTag (d.rootAttrs ++ [("xmlns", SF_NS)]) d.rootText
          d.rootChildren d.rootTail := by
      rw [show (⟨d.rootTag, setAttrib d.rootAttrs "xmlns" SF_NS, d.rootText,
        d.rootChildren, d.rootTail⟩ : XDoc).rootNode =
        .element d.rootTag (setAttrib d.rootAttrs "xmlns" SF_NS) d.rootText
          d.rootChildren d.rootTail from rfl, hset]
    rw [hroot] at hfuel ⊢
    cases fuel with
    | zero =>
      exact absurd hfuel (by
        have := eSize_pos (.element d.rootTag (d.rootAttrs ++ [("xmlns", SF_NS)])
          d.rootText d.rootChildren d.rootTail)
        omega)
    | succ f =>
      have hsize2 : (d.rootAttrs ++ [("xmlns", SF_NS)]).length +
          nSize d.rootChildren + 3 ≤ f + 1 := hfuel
      have hlen : (d.rootAttrs ++ [("xmlns", SF_NS)]).length =
          d.rootAttrs.length + 1 := by simp
      have hnpos := nSize_pos d.rootChildren
      rcases tagOk_main SF_NS d.rootTag (by decide) htag with ⟨hLne, hLname, hrebuild⟩
      rw [serializeNode_element_data, List.cons_append, parseF_el_eq]
      simp only [List.append_assoc]
      have hspan : spanP isNameChar ((stripNsTag d.rootTag).data ++
          ((attrsString (d.rootAttrs ++ [("xmlns", SF_NS)])).data ++
            (contentEmit (stripNsTag d.rootTag) d.rootText d.rootChildren ++
              (tailEmitN (.element d.rootTag (d.rootAttrs ++ [("xmlns", SF_NS)])
                d.rootText d.rootChildren d.rootTail) ++ cs)))) =
          ((stripNsTag d.rootTag).data,
            (attrsString (d.rootAttrs ++ [("xmlns", SF_NS)])).data ++
              (contentEmit (stripNsTag d.rootTag) d.rootText d.rootChildren ++
                (tailEmitN (.element d.rootTag (d.rootAttrs ++ [("xmlns", SF_NS)])
                  d.rootText d.rootChildren d.rootTail) ++ cs))) := by
        apply spanP_append _ _ _ hLname
        exact attrsContent_head_not_name (d.rootAttrs ++ [("xmlns", SF_NS)])
          (stripNsTag d.rootTag) d.rootText d.rootChildren _
      simp only [hspan]
      have hLe : (stripNsTag d.rootTag).data.isEmpty = false := by
        rcases hd : (stripNsTag d.rootTag).data with _ | _
        · exact absurd hd hLne
        · rfl
      rw [hLe]
      simp only [Bool.false_eq_true, if_false]
      have hnames2 : ∀ kv ∈ d.rootAttrs ++ [("xmlns", SF_NS)],
          validNameStr kv.1 = true := by
        intro kv hkv
        rcases List.mem_append.mp hkv with hin | hin
        · exact hnames kv hin
        · rcases List.mem_singleton.mp hin with rfl
          decide
      have hvals2 : ∀ kv ∈ d.rootAttrs ++ [("xmlns", SF_NS)],
          validAttrVal kv.2 = true := by
        intro kv hkv
        rcases List.mem_append.mp hkv with hin | hin
        · exact hvals kv hin
        · rcases List.mem_singleton.mp hin with rfl
          decide
      have hpa : parseAttrs f ((attrsString (d.rootAttrs ++ [("xmlns", SF_NS)])).data ++
          (contentEmit (stripNsTag d.rootTag) d.rootText d.rootChildren ++
            (tailEmitN (.element d.rootTag (d.rootAttrs ++ [("xmlns", SF_NS)])
              d.rootText d.rootChildren d.rootTail) ++ cs))) =
          some (d.rootAttrs ++ [("xmlns", SF_NS)],
            contentEmit (stripNsTag d.rootTag) d.rootText d.rootChildren ++
              (tailEmitN (.element d.rootTag (d.rootAttrs ++ [("xmlns", SF_NS)])
                d.rootText d.rootChildren d.rootTail) ++ cs)) :=
        parseAttrs_emit (d.rootAttrs ++ [("xmlns", SF_NS)]) f _ hnames2 hvals2
          (by omega)
          (contentEmit_head_not_ws (stripNsTag d.rootTag) d.rootText d.rootChildren _)
      simp only [hpa, optBind_some]
      simp only [buildTag_xmlns_last "" (stripNsTag d.rootTag).data d.rootAttrs SF_NS hxm]
      rw [hrebuild]
      exact (parseF_roundtrip f).2.1 SF_NS (stripNsTag d.rootTag) d.rootTag d.rootAttrs
        d.rootText d.rootChildren
        (tailEmitN (.element d.rootTag (d.rootAttrs ++ [("xmlns", SF_NS)])
          d.rootText d.rootChildren d.rootTail) ++ cs)
        (by decide) hch hLne hLname (by omega)
  · have hdn : docNs d = "" := by
      unfold docNs
      rw [if_neg hns]
    rw [hdn] at htag hch
    have htree : salesforce_encoding_tree d = d := by
      unfold salesforce_encoding_tree
      rw [if_neg hns]
    rw [htree] at hfuel ⊢
    have hwf : wfNode "" (.element d.rootTag d.rootAttrs d.rootText d.rootChildren
        d.rootTail) = true := by
      show (tagOk "" d.rootTag && d.rootAttrs.all attrOk &&
        wfList "" d.rootChildren && validTailOpt d.rootTail) = true
      rw [htag, hattrs, hch, rootTailOk_valid d.rootTail hrt]
      rfl
    exact (parseF_roundtrip fuel).1 "" d.rootTag d.rootAttrs d.rootText d.rootChildren
      d.rootTail cs (by decide) hwf hfuel

theorem parseDocument_salesforce (d : XDoc) (h : wfDoc d = true) :
    parseDocument (salesforce_encoding d) = some (canonDoc d) := by
  have hrt : rootTailOk d.rootTail = true := by
    have hw : (tagOk (docNs d) d.rootTag && d.rootAttrs.all attrOk &&
      wfList (docNs d) d.rootChildren && rootTailOk d.rootTail) = true := h
    exact (Bool.and_eq_true_iff.mp hw).2
  rcases serializeNode_head (salesforce_encoding_tree d).rootNode with ⟨r0, hr0⟩
  have hx : (salesforce_encoding d).data =
      ['<', '?', 'x', 'm', 'l'] ++
        ((" version=\"1.0\" encoding=\"UTF-8\"".data ++ ['?', '>']) ++
          ('\n' :: (serializeNode (salesforce_encoding_tree d).rootNode).data)) := by
    show (xml_encoding ++ serializeNode (salesforce_encoding_tree d).rootNode).data = _
    rw [strData_append]
    rw [show xml_encoding.data =
      (['<', '?', 'x', 'm', 'l'] ++
        ((" version=\"1.0\" encoding=\"UTF-8\"".data ++ ['?', '>']) ++ ['\n'])) from
      by decide]
    simp [List.append_assoc]
  have hsp : splitAtSub ['?', '>']
      ((" version=\"1.0\" encoding=\"UTF-8\"".data ++ ['?', '>']) ++
        ('\n' :: (serializeNode (salesforce_encoding_tree d).rootNode).data)) =
      some (" version=\"1.0\" encoding=\"UTF-8\"".data,
        '\n' :: (serializeNode (salesforce_encoding_tree d).rootNode).data) :=
    splitAtSub_boundary ['?', '>'] (" version=\"1.0\" encoding=\"UTF-8\"".data)
      ('\n' :: (serializeNode (salesforce_encoding_tree d).rootNode).data)
      (by decide) (by decide)
  have hws : skipWsL ('\n' :: (serializeNode (salesforce_encoding_tree d).rootNode).data) =
      (serializeNode (salesforce_encoding_tree d).rootNode).data := by
    rw [hr0]
    show List.dropWhile isWsChar ('\n' :: '<' :: r0) = '<' :: r0
    rw [List.dropWhile_cons]
    rw [show isWsChar '\n' = true from by decide]
    rw [if_pos rfl]
    rw [List.dropWhile_cons]
    rw [show isWsChar '<' = false from by decide]
    simp
  have hfuel : eSize (salesforce_encoding_tree d).rootNode ≤
      3 * (serializeNode (salesforce_encoding_tree d).rootNode).data.length + 3 := by
    have := eSize_le (salesforce_encoding_tree d).rootNode
    omega
  have hroot := parseF_root
    (3 * (serializeNode (salesforce_encoding_tree d).rootNode).data.length + 3) d h
    hfuel []
  rw [List.append_nil, List.append_nil] at hroot
  have hsk := skip_root_tail d hrt
  unfold parseDocument
  rw [hx]
  simp only [matchLit_self_append, hsp, hws, parseElementTop, hroot, asEl_el, hsk]
  rfl

theorem truthyOptStr_normText (text : Option String) :
    truthyOptStr (normText text) = truthyOptStr text := by
  cases text with
  | none => rfl
  | some t =>
    show truthyOptStr (if t.isEmpty then none else some t) = !t.isEmpty
    by_cases ht : t.isEmpty = true
    · rw [if_pos ht, ht]
      rfl
    · rw [if_neg ht]
      rfl

theorem canonList_isEmpty (ns : List Node) :
    (canonList ns).isEmpty = ns.isEmpty := by
  cases ns with
  | nil => rfl
  | cons n rest => rfl

theorem textEmit_norm (text : Option String) :
    (match normText text with | some s => saxEscape s | none => "") =
      (match text with | some s => saxEscape s | none => "") := by
  cases text with
  | none => rfl
  | some t =>
    show (match (if t.isEmpty then none else some t) with
      | some s => saxEscape s | none => "") = saxEscape t
    by_cases ht : t.isEmpty = true
    · rw [if_pos ht]
      have : t = "" := (String.isEmpty_iff t).mp ht
      subst this
      rfl
    · rw [if_neg ht]

theorem pyOr_newline_nonempty (tail : Option String) :
    (pyOrStr tail "\n").isEmpty = false := by
  cases tail with
  | none => rfl
  | some t =>
    show (if t.isEmpty then "\n" else t).isEmpty = false
    by_cases ht : t.isEmpty = true
    · rw [if_pos ht]
      rfl
    · rw [if_neg ht]
      exact Bool.eq_false_iff.mpr ht

theorem pyOr_pyOr_newline (tail : Option String) :
    pyOrStr (some (pyOrStr tail "\n")) "\n" = pyOrStr tail "\n" := by
  show (if (pyOrStr tail "\n").isEmpty then "\n" else pyOrStr tail "\n") =
    pyOrStr tail "\n"
  rw [pyOr_newline_nonempty]
  rfl

theorem pyOr_canonTail_comment (text : String) (tail : Option String) :
    pyOrStr (canonTail (.comment text tail)) "" = pyOrStr tail "" := by
  cases tail with
  | none => rfl
  | some t =>
    show pyOrStr (if t.isEmpty then none else some t) "" =
      (if t.isEmpty then "" else t)
    by_cases ht : t.isEmpty = true
    · rw [if_pos ht, if_pos ht]
      rfl
    · rw [if_neg ht, if_neg ht]
      show (if t.isEmpty then "" else t) = t
      rw [if_neg ht]

mutual

theorem serializeNode_canon (n : Node) :
    serializeNode (setTail (canonNode n) (canonTail n)) = serializeNode n := by
  cases n with
  | element tag attrs text children tail =>
    have ih := serializeList_canon children
    show serializeNode (.element tag attrs (normText text) (canonList children)
      (canonTail (.element tag attrs text children tail))) =
      serializeNode (.element tag attrs text children tail)
    rw [serializeNode_element, serializeNode_element]
    have hhc : has_content (.element tag attrs (normText text) (canonList children)
        (canonTail (.element tag attrs text children tail))) =
        has_content (.element tag attrs text children tail) := by
      show (truthyOptStr (normText text) || !(canonList children).isEmpty) =
        (truthyOptStr text || !children.isEmpty)
      rw [truthyOptStr_normText, canonList_isEmpty]
    rw [hhc]
    by_cases hc : has_content (.element tag attrs text children tail) = true
    · rw [hc]
      show "<" ++ stripNsTag tag ++ attrsString attrs ++ ">" ++ _ ++
        serializeList (canonList children) ++ "</" ++ stripNsTag tag ++ ">" ++
        pyOrStr (canonTail (.element tag attrs text children tail)) "\n" = _
      rw [ih, textEmit_norm]
      have hct : canonTail (.element tag attrs text children tail) =
          some (pyOrStr tail "\n") := by
        show (if has_content (.element tag attrs text children tail) then
          some (pyOrStr tail "\n") else none) = some (pyOrStr tail "\n")
        rw [if_pos hc]
      rw [hct, pyOr_pyOr_newline]
      rfl
    · rw [Bool.eq_false_iff.mpr hc]
      rfl
  | comment text tail =>
    show serializeNode (.comment text (canonTail (.comment text tail))) =
      serializeNode (.comment text tail)
    rw [serializeNode_comment, serializeNode_comment, pyOr_canonTail_comment]

theorem serializeList_canon (ns : List Node) :
    serializeList (canonList ns) = serializeList ns := by
  cases ns with
  | nil => rfl
  | cons n rest =>
    have ih1 := serializeNode_canon n
    have ih2 := serializeList_canon rest
    show serializeList (setTail (canonNode n) (canonTail n) :: canonList rest) =
      serializeList (n :: rest)
    rw [serializeList_cons, serializeList_cons, ih1, ih2]

end

theorem serializeNode_root_canon (tag : String) (attrs : List (String × String))
    (text : Option String) (children : List Node) (tail : Option String)
    (h : rootTailOk tail = true) :
    serializeNode (.element tag attrs (normText text) (canonList children) none) =
      serializeNode (.element tag attrs text children tail) := by
  rw [serializeNode_element, serializeNode_element]
  have hhc : has_content (.element tag attrs (normText text) (canonList children)
      none) = has_content (.element tag attrs text children tail) := by
    show (truthyOptStr (normText text) || !(canonList children).isEmpty) =
      (truthyOptStr text || !children.isEmpty)
    rw [truthyOptStr_normText, canonList_isEmpty]
  rw [hhc]
  by_cases hc : has_content (.element tag attrs text children tail) = true
  · rw [hc]
    show "<" ++ stripNsTag tag ++ attrsString attrs ++ ">" ++ _ ++
      serializeList (canonList children) ++ "</" ++ stripNsTag tag ++ ">" ++
      pyOrStr none "\n" = _
    rw [serializeList_canon, textEmit_norm, rootTail_pyOr tail h]
    rfl
  · rw [Bool.eq_false_iff.mpr hc]
    rfl

theorem roundtrip_serialize (d : XDoc) (h : rootTailOk d.rootTail = true) :
    salesforce_encoding (canonDoc d) = salesforce_encoding d := by
  unfold salesforce_encoding
  congr 1
  unfold salesforce_encoding_tree canonDoc
  by_cases hns : pyIn SF_NS d.rootTag = true
  · rw [if_pos (show pyIn SF_NS
      (⟨d.rootTag, d.rootAttrs, normText d.rootText, canonList d.rootChildren,
        none⟩ : XDoc).rootTag = true from hns)]
    rw [if_pos hns]
    exact serializeNode_root_canon d.rootTag (setAttrib d.rootAttrs "xmlns" SF_NS)
      d.rootText d.rootChildren d.rootTail h
  · rw [if_neg (show ¬pyIn SF_NS
      (⟨d.rootTag, d.rootAttrs, normText d.rootText, canonList d.rootChildren,
        none⟩ : XDoc).rootTag = true from hns)]
    rw [if_neg hns]
    exact serializeNode_root_canon d.rootTag d.rootAttrs
      d.rootText d.rootChildren d.rootTail h


/-- C7 amended: the unrestricted claim fails (see the C7 counterexample:
an escaped attribute value or tail re-parses to different bytes), but on
round-trip well-formed documents — attribute values and tails free of
markup characters, comments without an early `-->`, tags consistent with
the namespace the serializer infers, and a root tail the serializer's
newline fallback reproduces — serialization followed by parsing yields
the canonical image of the document, and serializing that image
reproduces the first serialization byte for byte:
`serialize(parse(serialize(D))) == serialize(D)`. -/
theorem c7_amended (d : XDoc) (h : wfDoc d = true) :
    parseDocument (salesforce_encoding d) = some (canonDoc d) ∧
    salesforce_encoding (canonDoc d) = salesforce_encoding d := by
  have hrt : rootTailOk d.rootTail = true := by
    have hw : (tagOk (docNs d) d.rootTag && d.rootAttrs.all attrOk &&
      wfList (docNs d) d.rootChildren && rootTailOk d.rootTail) = true := h
    exact (Bool.and_eq_true_iff.mp hw).2
  exact ⟨parseDocument_salesforce d h, roundtrip_serialize d hrt⟩

set_option maxRecDepth 100000 in
theorem c7_amended_witness :
    wfDoc sampleDocSF = true ∧
      (parseDocument (salesforce_encoding sampleDocSF) = some (canonDoc sampleDocSF) ∧
        salesforce_encoding (canonDoc sampleDocSF) = salesforce_encoding sampleDocSF) :=
  ⟨by decide, c7_amended sampleDocSF (by decide)⟩

/-- C4 amended: the unrestricted claim fails (see the C4 counterexample:
`<a></a>` parses and re-serializes as `<a/>`), but for every byte string
`B` that the serializer itself produced from a round-trip well-formed
document, any document parsed from `B` serializes back to exactly `B` —
the no-removal pipeline is byte-preserving on the serializer's own
output. -/
theorem c4_amended (B : String) (d0 : XDoc) (hwf : wfDoc d0 = true)
    (hB : B = salesforce_encoding d0) (d : XDoc)
    (hp : parseDocument B = some d) :
    salesforce_encoding d = B := by
  subst hB
  rw [parseDocument_salesforce d0 hwf] at hp
  injection hp with h2
  rw [← h2]
  have hrt : rootTailOk d0.rootTail = true := by
    have hw : (tagOk (docNs d0) d0.rootTag && d0.rootAttrs.all attrOk &&
      wfList (docNs d0) d0.rootChildren && rootTailOk d0.rootTail) = true := hwf
    exact (Bool.and_eq_true_iff.mp hw).2
  exact roundtrip_serialize d0 hrt

set_option maxRecDepth 100000 in
theorem c4_amended_witness :
    wfDoc sampleDocPlain = true ∧
      parseDocument (salesforce_encoding sampleDocPlain) = some (canonDoc sampleDocPlain) ∧
      salesforce_encoding (canonDoc sampleDocPlain) = salesforce_encoding sampleDocPlain :=
  ⟨by decide, by rfl,
    c4_amended (salesforce_encoding sampleDocPlain) sampleDocPlain (by decide) rfl
      (canonDoc sampleDocPlain) (by rfl)⟩
